import Mathlib

/-!
Verification development for the recipe-extraction pipeline of the
myrecipebook repository (src/lib/extraction-utils.ts,
src/lib/structured-data-parser.ts, src/lib/recipe-validation.ts — shipped
inside src/types.ts — and the current src/lib/ai.ts module).

The TypeScript sources are shallowly embedded:

* JavaScript runtime values are modelled by the inductive type `Val`
  (strings, integers, booleans, null, undefined, arrays, objects).
  Numbers are modelled as integers: no claim under study involves
  non-integral JavaScript numerics, and every number the pipeline
  produces (servings counts, lengths) is an integer.
* JavaScript strings are modelled as Lean `String`s (sequences of unicode
  scalar values); `length`, `trim`, `toUpperCase`, `toLowerCase`,
  `startsWith`, `substring` are re-implemented below with JavaScript
  semantics (faithful on the basic multilingual plane).
* Exceptions are modelled with `Except JsErr`; `try`/`catch` becomes
  explicit handling.
* Asynchronous effectful code (the ai.ts module) is modelled by a monad
  `M` that threads an oracle index and an event log through an
  environment `Env` describing the external collaborators (HTTP fetch
  and the generative-AI backend).  the race in withTimeout is modelled by
  letting the oracle answer `timeout` for a call.
-/

namespace MRB

/-! ## JavaScript string primitives -/

/-- Whitespace characters recognised by the JavaScript \s class, String.prototype.trim
and parseInt (the practically occurring subset: space, tab, LF, VT, FF, CR,
NBSP, line separator, paragraph separator, BOM). -/
def jsWhite (c : Char) : Bool :=
  c == ' ' || c == '\t' || c == '\n' || c == '\x0b' || c == '\x0c' ||
  c == '\x0d' || c == ' ' || c == ' ' || c == ' ' || c == '﻿'

/-- Drop leading JS whitespace from a character list. -/
def dropWhiteL (l : List Char) : List Char := l.dropWhile jsWhite

/-- JavaScript `String.prototype.trim` on character lists. -/
def jsTrimL (l : List Char) : List Char :=
  ((l.dropWhile jsWhite).reverse.dropWhile jsWhite).reverse

/-- JavaScript `String.prototype.trim`. -/
def jsTrim (s : String) : String := ⟨jsTrimL s.data⟩

/-- JavaScript `String.prototype.toUpperCase` (ASCII-faithful model). -/
def jsToUpper (s : String) : String := ⟨s.data.map Char.toUpper⟩

/-- JavaScript `String.prototype.toLowerCase` (ASCII-faithful model). -/
def jsToLower (s : String) : String := ⟨s.data.map Char.toLower⟩

/-- Prefix test on character lists (JavaScript `String.prototype.startsWith`). -/
def startsWithL : List Char → List Char → Bool
  | _, [] => true
  | [], _ :: _ => false
  | c :: cs, p :: ps => c == p && startsWithL cs ps

/-- JavaScript `String.prototype.startsWith`. -/
def jsStartsWith (s p : String) : Bool := startsWithL s.data p.data

/-- Substring occurrence test (used to state that an error message contains
the substring "ingredient"). -/
def containsSubL : List Char → List Char → Bool
  | [], p => startsWithL [] p
  | c :: cs, p => startsWithL (c :: cs) p || containsSubL cs p

/-- String containment: `containsSub s p` holds when `p` occurs in `s`. -/
def containsSub (s p : String) : Bool := containsSubL s.data p.data

/-- JavaScript `Array.prototype.join(sep)` applied with a separator. -/
def joinSep (sep : String) : List String → String
  | [] => ""
  | [x] => x
  | x :: y :: rest => x ++ sep ++ joinSep sep (y :: rest)

/-- JavaScript `String.prototype.substring(0, n)` (codepoint model). -/
def jsTake (s : String) (n : Nat) : String := ⟨s.data.take n⟩

/-! ## JavaScript values -/

/-- Model of a JavaScript runtime value.  Numbers are modelled as integers
(see the header comment). -/
inductive Val where
  | vStr (s : String)
  | vNum (n : Int)
  | vBool (b : Bool)
  | vNull
  | vUndefined
  | vArr (xs : List Val)
  | vObj (fields : List (String × Val))
deriving Repr

/-- JavaScript truthiness. -/
def jsTruthy : Val → Bool
  | .vStr s => s ≠ ""
  | .vNum n => n ≠ 0
  | .vBool b => b
  | .vNull => false
  | .vUndefined => false
  | .vArr _ => true
  | .vObj _ => true

/-- JavaScript `a || b`. -/
def jsOr (a b : Val) : Val := if jsTruthy a then a else b

/-- Is the value `null` or `undefined` (property access on it throws)? -/
def isNullish : Val → Bool
  | .vNull => true
  | .vUndefined => true
  | _ => false

/-- Does `typeof v` yield the string "object"? -/
def typeofObject : Val → Bool
  | .vObj _ => true
  | .vArr _ => true
  | .vNull => true
  | _ => false

/-- Last binding of a key in an object literal (later JSON keys win). -/
def lookupField (fields : List (String × Val)) (k : String) : Option Val :=
  match fields with
  | [] => none
  | (k', v) :: rest =>
      match lookupField rest k with
      | some w => some w
      | none => if k' == k then some v else none

/-- Property access `v[k]` on a value that is not `null`/`undefined`.
Accessing a property of a primitive or an array (for the property names the
pipeline uses) yields `undefined`. -/
def getProp (v : Val) (k : String) : Val :=
  match v with
  | .vObj fields => match lookupField fields k with
      | some w => w
      | none => .vUndefined
  | _ => .vUndefined

/-- Decimal digit character. -/
def digitChar (d : Nat) : Char := Char.ofNat (48 + d)

/-- Decimal rendering helper (fuel-structural so the kernel can evaluate
it; the fuel bounds the number of digits). -/
def natToDecF : Nat → Nat → List Char
  | 0, _ => []
  | f + 1, n => if n < 10 then [digitChar n] else natToDecF f (n / 10) ++ [digitChar (n % 10)]

/-- Decimal rendering of a natural number (most significant digit
first). -/
def natToDec (n : Nat) : List Char := natToDecF (n + 1) n

/-- JavaScript String() of a non-negative integer-valued number: plain
decimal up to 21 digits, exponential notation from 1e21 on (String(1e21)
is "1e+21", String(1.23e21) is "1.23e+21"): leading significant digit, a
point and the remaining significant digits when there are any, then e+
and the exponent. -/
def jsNatToString (n : Nat) : List Char :=
  if (natToDec n).length ≤ 21 then natToDec n
  else
    match ((natToDec n).reverse.dropWhile (fun c => c == '0')).reverse with
    | [] => natToDec n
    | d :: rest =>
        d :: (if rest.isEmpty then [] else '.' :: rest) ++
          'e' :: '+' :: natToDec ((natToDec n).length - 1)

/-- JavaScript String() restricted to integer-valued numbers (the model
keeps integers exact, so this is faithful for values whose double
representation is exact, in particular below 2 to the 53rd). -/
def jsIntToString (n : Int) : List Char :=
  if n < 0 then '-' :: jsNatToString n.natAbs else jsNatToString n.toNat

/-- Comma join of Array.prototype.toString. -/
def jsArrJoin : List String → String
  | [] => ""
  | [x] => x
  | x :: y :: rest => x ++ "," ++ jsArrJoin (y :: rest)

/-- JavaScript `String(v)` coercion; an array stringifies to its elements
joined by commas, with null and undefined elements rendered empty.  The
fuel bounds the nesting depth of arrays that are stringified (the wrapper
below passes a generous bound — only stringification of arrays nested
deeper than that bound falls outside the model). -/
def jsToStringF : Nat → Val → String
  | _, .vStr s => s
  | _, .vNum n => ⟨jsIntToString n⟩
  | _, .vBool b => if b then "true" else "false"
  | _, .vNull => "null"
  | _, .vUndefined => "undefined"
  | 0, .vArr _ => ""
  | f + 1, .vArr xs =>
      jsArrJoin (xs.map (fun x =>
        match x with
        | .vNull => ""
        | .vUndefined => ""
        | v => jsToStringF f v))
  | _, .vObj _ => "[object Object]"

/-- JavaScript `String(v)` coercion. -/
def jsToString (v : Val) : String := jsToStringF 1000 v

/-! ## JavaScript parseInt -/

/-- Decimal digit run to an integer (accumulator form). -/
def digitsToNat (acc : Nat) : List Char → Nat
  | [] => acc
  | c :: cs => if c.isDigit then digitsToNat (acc * 10 + (c.toNat - 48)) cs else acc

/-- Count leading decimal digits. -/
def leadingDigits : List Char → Nat
  | [] => 0
  | c :: cs => if c.isDigit then leadingDigits cs + 1 else 0

/-- JavaScript `parseInt(s, 10)`: skip leading whitespace, optional sign,
then read leading decimal digits; `none` models `NaN`.  The model returns
the exact integer value of the digit run, where parseInt rounds it to a
double: it is faithful wherever that value has an exact double
representation (in particular below 2 to the 53rd). -/
def jsParseInt (s : String) : Option Int :=
  let l := dropWhiteL s.data
  match l with
  | '-' :: rest =>
      if leadingDigits rest == 0 then none
      else some (-(Int.ofNat (digitsToNat 0 rest)))
  | '+' :: rest =>
      if leadingDigits rest == 0 then none
      else some (Int.ofNat (digitsToNat 0 rest))
  | _ =>
      if leadingDigits l == 0 then none
      else some (Int.ofNat (digitsToNat 0 l))

/-! ## A model of JSON.parse

JSON texts are parsed into `Val`.  Only integral JSON numbers are accepted
(a number with a fraction or exponent makes the block count as unparseable
in this model; no claim under study involves non-integral numbers).  Parse
failure models a thrown SyntaxError. -/

/-- JSON insignificant whitespace. -/
def skipJWs (l : List Char) : List Char :=
  l.dropWhile (fun c => c == ' ' || c == '\t' || c == '\n' || c == '\x0d')

/-- Is the head of the list a decimal digit? -/
def headDigit : List Char → Bool
  | c :: _ => c.isDigit
  | [] => false

/-- Parse a JSON integer literal (digit part, leading-zero rule enforced,
fraction and exponent rejected per the integer-number model). -/
def jpNum (l : List Char) : Option (Nat × List Char) :=
  let ds := l.takeWhile Char.isDigit
  let rest := l.dropWhile Char.isDigit
  if ds.isEmpty then none
  else if startsWithL ds ['0'] && ds.length > 1 then none
  else match rest with
    | '.' :: _ => none
    | 'e' :: _ => none
    | 'E' :: _ => none
    | _ => some (digitsToNat 0 ds, rest)

/-- Hex digit value. -/
def hexVal (c : Char) : Option Nat :=
  if c.isDigit then some (c.toNat - 48)
  else if 'a' ≤ c && c ≤ 'f' then some (c.toNat - 87)
  else if 'A' ≤ c && c ≤ 'F' then some (c.toNat - 55)
  else none

mutual

/-- Parse a JSON value (fuel-based recursion). -/
def jpVal : Nat → List Char → Option (Val × List Char)
  | 0, _ => none
  | f + 1, l =>
    match skipJWs l with
    | '{' :: rest =>
        (match skipJWs rest with
         | '}' :: rest2 => some (.vObj [], rest2)
         | rest2 => jpMembers f rest2 [])
    | '[' :: rest =>
        (match skipJWs rest with
         | ']' :: rest2 => some (.vArr [], rest2)
         | rest2 => jpElems f rest2 [])
    | '"' :: rest =>
        (match jpStr f rest [] with
         | some (s, r) => some (.vStr s, r)
         | none => none)
    | 't' :: 'r' :: 'u' :: 'e' :: rest => some (.vBool true, rest)
    | 'f' :: 'a' :: 'l' :: 's' :: 'e' :: rest => some (.vBool false, rest)
    | 'n' :: 'u' :: 'l' :: 'l' :: rest => some (.vNull, rest)
    | '-' :: rest =>
        (match jpNum rest with
         | some (n, r) => some (.vNum (-(Int.ofNat n)), r)
         | none => none)
    | l' =>
        (match jpNum l' with
         | some (n, r) => some (.vNum (Int.ofNat n), r)
         | none => none)

/-- Parse the members of a JSON object after the opening brace (at least one
member present). -/
def jpMembers : Nat → List Char → List (String × Val) → Option (Val × List Char)
  | 0, _, _ => none
  | f + 1, l, acc =>
    match skipJWs l with
    | '"' :: rest =>
        (match jpStr f rest [] with
         | some (k, r1) =>
             (match skipJWs r1 with
              | ':' :: r2 =>
                  (match jpVal f r2 with
                   | some (v, r3) =>
                       (match skipJWs r3 with
                        | ',' :: r4 => jpMembers f r4 (acc ++ [(k, v)])
                        | '}' :: r4 => some (.vObj (acc ++ [(k, v)]), r4)
                        | _ => none)
                   | none => none)
              | _ => none)
         | none => none)
    | _ => none

/-- Parse the elements of a JSON array after the opening bracket (at least
one element present). -/
def jpElems : Nat → List Char → List Val → Option (Val × List Char)
  | 0, _, _ => none
  | f + 1, l, acc =>
    match jpVal f l with
    | some (v, r1) =>
        (match skipJWs r1 with
         | ',' :: r2 => jpElems f r2 (acc ++ [v])
         | ']' :: r2 => some (.vArr (acc ++ [v]), r2)
         | _ => none)
    | none => none

/-- Parse a JSON string body after the opening quote. -/
def jpStr : Nat → List Char → List Char → Option (String × List Char)
  | 0, _, _ => none
  | f + 1, l, acc =>
    match l with
    | [] => none
    | '"' :: rest => some (⟨acc.reverse⟩, rest)
    | '\\' :: e :: rest =>
        (match e with
         | '"' => jpStr f rest ('"' :: acc)
         | '\\' => jpStr f rest ('\\' :: acc)
         | '/' => jpStr f rest ('/' :: acc)
         | 'b' => jpStr f rest ('\x08' :: acc)
         | 'f' => jpStr f rest ('\x0c' :: acc)
         | 'n' => jpStr f rest ('\n' :: acc)
         | 'r' => jpStr f rest ('\x0d' :: acc)
         | 't' => jpStr f rest ('\t' :: acc)
         | 'u' =>
             (match rest with
              | a :: b :: c :: d :: rest2 =>
                  (match hexVal a, hexVal b, hexVal c, hexVal d with
                   | some x, some y, some z, some w =>
                       let n := ((x * 16 + y) * 16 + z) * 16 + w
                       if n.isValidChar then jpStr f rest2 (Char.ofNat n :: acc)
                       else none
                   | _, _, _, _ => none)
              | _ => none)
         | _ => none)
    | c :: rest => if c.toNat < 32 then none else jpStr f rest (c :: acc)

end

/-- Fuel bound for JSON parsing (ample for the recursion pattern above). -/
def jsonFuel (s : String) : Nat := 8 * s.data.length + 16

/-- Model of `JSON.parse`: `none` models a thrown SyntaxError. -/
def parseJson (s : String) : Option Val :=
  match jpVal (jsonFuel s) s.data with
  | some (v, rest) =>
      (match skipJWs rest with
       | [] => some v
       | _ => none)
  | none => none

/-! ## A backtracking regular-expression engine

The two regular expressions of the source (the ingredient-splitting pattern
of structured-data-parser.ts and the video-id pattern of ai.ts) are
transcribed into the `RE` syntax below and run with JavaScript
leftmost-greedy backtracking semantics.  The engine is fuel-bounded; fuel
exhaustion yields "no match" (a documented modelling bound — the general
theorems below never depend on the outcome of a match, only concrete
evaluations do). -/

/-- Regular-expression syntax: single-character class, empty, sequence,
ordered alternation, greedy star, greedy option, capturing group. -/
inductive RE where
  | eps
  | cls (p : Char → Bool)
  | seq (a b : RE)
  | alt (a b : RE)
  | star (a : RE)
  | opt (a : RE)
  | grp (i : Nat) (a : RE)

/-- Backtracking matcher in continuation-passing style.  The continuation
receives the remaining input and the captures recorded on the accepted
path; alternatives are tried in JavaScript order (greedy quantifiers take
the longer iteration first, alternation tries the left branch first). -/
def reMatch {σ : Type} : Nat → RE → List Char → List (Nat × List Char) →
    (List Char → List (Nat × List Char) → Option σ) → Option σ
  | 0, _, _, _, _ => none
  | f + 1, re, l, caps, k =>
    match re with
    | .eps => k l caps
    | .cls p =>
        (match l with
         | c :: rest => if p c then k rest caps else none
         | [] => none)
    | .seq a b => reMatch f a l caps (fun rest caps' => reMatch f b rest caps' k)
    | .alt a b =>
        (match reMatch f a l caps k with
         | some r => some r
         | none => reMatch f b l caps k)
    | .opt a =>
        (match reMatch f a l caps k with
         | some r => some r
         | none => k l caps)
    | .star a =>
        (match reMatch f a l caps
            (fun rest caps' =>
              if rest.length < l.length then reMatch f (.star a) rest caps' k
              else none) with
         | some r => some r
         | none => k l caps)
    | .grp i a =>
        reMatch f a l caps
          (fun rest caps' => k rest ((i, l.take (l.length - rest.length)) :: caps'))

/-- Sequence a list of expressions. -/
def seqList : List RE → RE
  | [] => .eps
  | [r] => r
  | r :: s :: rest => .seq r (seqList (s :: rest))

/-- Ordered alternation over a list of expressions. -/
def altList : List RE → RE
  | [] => .cls (fun _ => false)
  | [r] => r
  | r :: s :: rest => .alt r (altList (s :: rest))

/-- Case-sensitive literal. -/
def litS (s : String) : RE := seqList (s.data.map (fun ch => RE.cls (fun c => c == ch)))

/-- Case-insensitive literal (the /i flag). -/
def litCI (s : String) : RE :=
  seqList (s.data.map (fun ch => RE.cls (fun c => c.toLower == ch.toLower)))

/-- One-or-more repetition (greedy). -/
def rePlus (r : RE) : RE := .seq r (.star r)

/-- Exact n-fold repetition. -/
def repN : Nat → RE → RE
  | 0, _ => .eps
  | n + 1, r => .seq r (repN n r)

/-- The JavaScript dot (any character except line terminators). -/
def reDot : RE :=
  .cls (fun c => !(c == '\n' || c == '\x0d' || c == ' ' || c == ' '))

/-- Fuel for regular-expression matching of an input of length n. -/
def reFuel (n : Nat) : Nat := (n + 4) * (n + 4) * (n + 4) * 4

/-- Capture lookup on the accepted path (first record wins). -/
def capGet (caps : List (Nat × List Char)) (i : Nat) : Option (List Char) :=
  match caps with
  | [] => none
  | (j, l) :: rest => if j == i then some l else capGet rest i

/-! ## extraction-utils.ts: error taxonomy and URL normalization -/

/-- The classification codes of RecipeExtractionError (extraction-utils.ts). -/
inductive ErrCode where
  | NETWORK_ERROR
  | NO_RECIPE_FOUND
  | PARSING_ERROR
  | API_LIMIT
  | TIMEOUT
  | VALIDATION_ERROR
deriving DecidableEq, Repr

/-- The RecipeExtractionError class of extraction-utils.ts (the cause is
modelled by its message). -/
structure RecipeExtractionError where
  message : String
  code : ErrCode
  url : Option String := none
  cause : Option String := none
deriving DecidableEq, Repr

/-- A thrown JavaScript error: either a RecipeExtractionError or any other
error, modelled by its message. -/
inductive JsErr where
  | extraction (e : RecipeExtractionError)
  | plain (message : String)
deriving DecidableEq, Repr

/-- Scheme characters after the first (RFC 3986 / WHATWG). -/
def isSchemeChar (c : Char) : Bool :=
  c.isAlpha || c.isDigit || c == '+' || c == '-' || c == '.'

/-- Split a leading URL scheme (letter, scheme chars, colon) off a string. -/
def schemeSplit (l : List Char) : Option (List Char × List Char) :=
  match l with
  | [] => none
  | c :: rest =>
      if c.isAlpha then
        match rest.dropWhile isSchemeChar with
        | ':' :: r => some (c :: rest.takeWhile isSchemeChar, r)
        | _ => none
      else none

/-- The WHATWG special schemes. -/
def specialScheme (s : List Char) : Bool :=
  let low : String := ⟨s.map Char.toLower⟩
  low == "http" || low == "https" || low == "ws" || low == "wss" ||
  low == "ftp" || low == "file"

/-- Code points the WHATWG URL parser forbids inside a host. -/
def forbiddenHostChar (c : Char) : Bool :=
  c == '\x00' || c == '\t' || c == '\n' || c == '\x0d' || c == ' ' ||
  c == '#' || c == '/' || c == ':' || c == '<' || c == '>' || c == '?' ||
  c == '@' || c == '[' || c == '\\' || c == ']' || c == '^' || c == '|'

/-- Part of the authority after the last userinfo separator. -/
def afterLastAt (l : List Char) : List Char :=
  (l.reverse.takeWhile (fun c => c ≠ '@')).reverse

/-- Simplified model of the WHATWG `new URL(s)` constructor succeeding:
a scheme must be present; for the special schemes the authority must hold a
non-empty host without forbidden code points and a numeric in-range port;
non-special schemes take an opaque path and always parse.  (IPv6/IPv4 and
percent-encoding validation are beyond this model; no claim depends on
them.) -/
def urlCanParse (s : String) : Bool :=
  match schemeSplit s.data with
  | none => false
  | some (scheme, rest) =>
      if specialScheme scheme then
        let afterSlashes := rest.dropWhile (fun c => c == '/' || c == '\\')
        let authority := afterSlashes.takeWhile
          (fun c => !(c == '/' || c == '\\' || c == '?' || c == '#'))
        let hostPort := afterLastAt authority
        let host := hostPort.takeWhile (fun c => c ≠ ':')
        let portDigits :=
          match hostPort.dropWhile (fun c => c ≠ ':') with
          | ':' :: p => p
          | _ => []
        !host.isEmpty && host.all (fun c => !forbiddenHostChar c) &&
          portDigits.all Char.isDigit &&
          (portDigits.isEmpty || digitsToNat 0 portDigits ≤ 65535)
      else true

/-- The normalizeUrl function of extraction-utils.ts: prepend https:// when
the string starts with neither http:// nor https://, then validate with the
URL constructor; a parse failure raises
RecipeExtractionError(VALIDATION_ERROR). -/
def normalizeUrl (url : String) : Except RecipeExtractionError String :=
  let url := if !jsStartsWith url "http://" && !jsStartsWith url "https://" then
    "https://" ++ url else url
  if urlCanParse url then .ok url
  else .error { message := "Invalid URL format", code := .VALIDATION_ERROR, url := some url }

/-! ## structured-data-parser.ts -/

/-- An ingredient record {name, quantity} as produced by the parser. -/
structure Ingredient where
  name : String
  quantity : String
deriving DecidableEq, Repr

/-- The ParsedRecipeData interface.  The TypeScript type declares title and
description as strings, but the untyped JSON-LD data can place any value
there, so they are modelled as `Val`. -/
structure ParsedRecipeData where
  title : Val
  description : Val
  servings : Int
  ingredients : List Ingredient
  instructions : List String
deriving Repr

/-- Character class of the ingredient-splitting pattern:
[\d\s\/\-¼½¾⅓⅔⅛⅜⅝⅞]. -/
def ingClass (c : Char) : Bool :=
  c.isDigit || jsWhite c || c == '/' || c == '-' ||
  c == '¼' || c == '½' || c == '¾' || c == '⅓' || c == '⅔' ||
  c == '⅛' || c == '⅜' || c == '⅝' || c == '⅞'

/-- Unit words of the ingredient-splitting pattern, in source alternation
order. -/
def unitWords : List String :=
  ["cup", "cups", "tablespoon", "tablespoons", "teaspoon", "teaspoons",
   "tbsp", "tsp", "oz", "ounce", "ounces", "pound", "pounds", "lb", "lbs",
   "gram", "grams", "g", "kg", "ml", "milliliter", "milliliters",
   "liter", "liters", "inch", "inches"]

/-- Greedy whitespace run (\s+). -/
def wsPlus : RE := rePlus (.cls jsWhite)

/-- The ingredient-splitting regular expression of parseIngredientString:
^([\d\s\/\-¼½¾⅓⅔⅛⅜⅝⅞]+(?:\s+(?:unit)?)?)\s+(.+)$ with the /i flag. -/
def ingRE : RE :=
  .seq
    (.grp 1 (.seq (rePlus (.cls ingClass))
      (.opt (.seq wsPlus (.opt (altList (unitWords.map litCI)))))))
    (.seq wsPlus (.grp 2 (rePlus reDot)))

/-- Run the anchored ingredient pattern; yields the two capture groups. -/
def ingMatch (s : String) : Option (String × String) :=
  reMatch (reFuel s.data.length) ingRE s.data []
    (fun rest caps =>
      match rest with
      | [] =>
          (match capGet caps 1, capGet caps 2 with
           | some g1, some g2 => some (⟨g1⟩, ⟨g2⟩)
           | _, _ => none)
      | _ => none)

/-- The parseIngredientString function: split a quantity prefix off an
ingredient string; without a match the whole trimmed string is the name. -/
def parseIngredientString (ingredientStr : String) : Ingredient :=
  let trimmed := jsTrim ingredientStr
  match ingMatch trimmed with
  | some (g1, g2) => { quantity := jsTrim g1, name := jsTrim g2 }
  | none => { quantity := "", name := trimmed }

/-- Calling parseIngredientString on a non-string value throws (the .trim
call); used for the object ingredient format. -/
def parseIngredientStringVal (v : Val) : Except JsErr Ingredient :=
  match v with
  | .vStr s => .ok (parseIngredientString s)
  | _ => .error (.plain "TypeError: ingredientStr.trim is not a function")

/-- Mapping step of parseIngredients: string entries are split, object
entries go through their text/name/@value field, anything else is
stringified with an empty quantity. -/
def parseIngredientEntry (ingredient : Val) : Except JsErr Ingredient :=
  match ingredient with
  | .vStr s => .ok (parseIngredientString s)
  | .vObj fs =>
      let text := jsOr (getProp (.vObj fs) "text")
        (jsOr (getProp (.vObj fs) "name") (getProp (.vObj fs) "@value"))
      if jsTruthy text then parseIngredientStringVal text
      else .ok { name := jsToString (.vObj fs), quantity := "" }
  | .vArr xs =>
      let text := jsOr (getProp (.vArr xs) "text")
        (jsOr (getProp (.vArr xs) "name") (getProp (.vArr xs) "@value"))
      if jsTruthy text then parseIngredientStringVal text
      else .ok { name := jsToString (.vArr xs), quantity := "" }
  | v => .ok { name := jsToString v, quantity := "" }

/-- Error-propagating map (the JavaScript Array.prototype.map, which
rethrows the first error raised by its callback). -/
def mapExcept {α β : Type} (f : α → Except JsErr β) : List α → Except JsErr (List β)
  | [] => .ok []
  | x :: xs => do
      let y ← f x
      let ys ← mapExcept f xs
      .ok (y :: ys)

/-- The parseIngredients function of structured-data-parser.ts. -/
def parseIngredients (ingredientsList : Val) : Except JsErr (List Ingredient) :=
  match ingredientsList with
  | .vArr xs =>
      if xs.isEmpty then .ok []
      else do
        let mapped ← mapExcept parseIngredientEntry xs
        .ok (mapped.filter (fun ing => (jsTrim ing.name).length > 0))
  | _ => .ok []

/-- Split a character list at every newline (segments between newlines, in
order, empty segments preserved — the String.prototype.split("\n")
behaviour; the \n+ of the source collapses runs, which after the trim and
drop-empty steps yields the same list). -/
def splitOnNL : List Char → List (List Char)
  | [] => [[]]
  | c :: rest =>
      if c == '\n' then [] :: splitOnNL rest
      else
        match splitOnNL rest with
        | seg :: segs => (c :: seg) :: segs
        | [] => [[c]]

/-- The .trim call on a truthy text/name/@value field of a step object;
throws on a non-string value. -/
def trimVal (v : Val) : Except JsErr String :=
  match v with
  | .vStr s => .ok (jsTrim s)
  | _ => .error (.plain "TypeError: trim is not a function")

/-- Step-object handling of parseInstructions (HowToStep format). -/
def parseInstructionObj (v : Val) : Except JsErr String :=
  let t := getProp v "text"
  if jsTruthy t then trimVal t
  else
    let n := getProp v "name"
    if jsTruthy n then trimVal n
    else
      let a := getProp v "@value"
      if jsTruthy a then trimVal a
      else .ok (jsTrim (jsToString v))

/-- Mapping step of parseInstructions over an array entry. -/
def parseInstructionEntry (instruction : Val) : Except JsErr String :=
  match instruction with
  | .vStr s => .ok (jsTrim s)
  | .vObj fs => parseInstructionObj (.vObj fs)
  | .vArr xs => parseInstructionObj (.vArr xs)
  | v => .ok (jsTrim (jsToString v))

/-- The parseInstructions function: an array is mapped entry-wise, a single
string is split on newline runs, anything else yields no instructions.
(The JavaScript split-on-\n+ then trim then drop-empty composite is
rendered as split-on-\n then trim then drop-empty, which yields the same
list.) -/
def parseInstructions (instructionsList : Val) : Except JsErr (List String) :=
  match instructionsList with
  | .vArr xs => do
      let mapped ← mapExcept parseInstructionEntry xs
      .ok (mapped.filter (fun step => step.length > 0))
  | .vStr s =>
      .ok (((splitOnNL s.data).map (fun l => jsTrim ⟨l⟩)).filter
        (fun x => x.length > 0))
  | _ => .ok []

/-- First maximal decimal-digit run of a character list (the /\d+/ match
used on the recipeYield value). -/
def firstDigitRun (l : List Char) : Option (List Char) :=
  match l with
  | [] => none
  | c :: rest =>
      if c.isDigit then some (c :: rest.takeWhile Char.isDigit)
      else firstDigitRun rest

/-- Servings extraction of transformSchemaOrgToRecipe: first digit run of
the stringified recipeYield (first array element when an array), default 4. -/
def extractServings (recipeYield : Val) : Int :=
  if jsTruthy recipeYield then
    let yieldValue :=
      match recipeYield with
      | .vArr [] => .vUndefined
      | .vArr (x :: _) => x
      | v => v
    match firstDigitRun (jsToString yieldValue).data with
    | some ds => Int.ofNat (digitsToNat 0 ds)
    | none => 4
  else 4

/-- Body of transformSchemaOrgToRecipe before its catch-all. -/
def transformSchemaOrgToRecipeE (schemaRecipe : Val) :
    Except JsErr (Option ParsedRecipeData) :=
  let title := jsOr (getProp schemaRecipe "name") (getProp schemaRecipe "headline")
  if !jsTruthy title then .ok none
  else
    let description := jsOr (getProp schemaRecipe "description") (.vStr "")
    let servings := extractServings (getProp schemaRecipe "recipeYield")
    match parseIngredients
      (jsOr (getProp schemaRecipe "recipeIngredient") (.vArr [])) with
    | .error e => .error e
    | .ok ingredients =>
        if ingredients.isEmpty then .ok none
        else
          match parseInstructions
            (jsOr (getProp schemaRecipe "recipeInstructions") (.vArr [])) with
          | .error e => .error e
          | .ok instructions =>
              if instructions.isEmpty then .ok none
              else .ok (some { title, description, servings, ingredients,
                               instructions })

/-- The transformSchemaOrgToRecipe function; its try/catch turns any thrown
error into a null result. -/
def transformSchemaOrgToRecipe (schemaRecipe : Val) : Option ParsedRecipeData :=
  match transformSchemaOrgToRecipeE schemaRecipe with
  | .ok r => r
  | .error _ => none

/-- Strict string equality test `v === "lit"`. -/
def valIsStr (v : Val) (s : String) : Bool :=
  match v with
  | .vStr t => t == s
  | _ => false

/-- The @graph find callback: first element whose @type is "Recipe";
accessing @type of a null element throws. -/
def findGraphRecipe : List Val → Except JsErr (Option Val)
  | [] => .ok none
  | g :: gs =>
      if isNullish g then .error (.plain "TypeError: cannot read @type of null")
      else if valIsStr (getProp g "@type") "Recipe" then .ok (some g)
      else findGraphRecipe gs

/-- Locate a Recipe record in one JSON-LD item: a bare Recipe object, a
Recipe inside an @graph array, or a Recipe among a list-valued @type. -/
def findRecipeInItem (item : Val) : Except JsErr (Option Val) :=
  if isNullish item then .error (.plain "TypeError: cannot read @type of null")
  else if valIsStr (getProp item "@type") "Recipe" then .ok (some item)
  else
    let graph := getProp item "@graph"
    if jsTruthy graph then
      match graph with
      | .vArr gs => findGraphRecipe gs
      | _ => .error (.plain "TypeError: find is not a function")
    else
      match getProp item "@type" with
      | .vArr ts =>
          if ts.any (fun t => valIsStr t "Recipe") then .ok (some item)
          else .ok none
      | _ => .ok none

/-- Item loop of parseJsonLdRecipe inside one script block. -/
def processItems : List Val → Except JsErr (Option ParsedRecipeData)
  | [] => .ok none
  | item :: rest =>
      match findRecipeInItem item with
      | .error e => .error e
      | .ok (some r) =>
          if jsTruthy r then
            match transformSchemaOrgToRecipe r with
            | some parsed => .ok (some parsed)
            | none => processItems rest
          else processItems rest
      | .ok none => processItems rest

/-- Processing of one JSON-LD script block: empty contents are skipped,
JSON.parse failure or any thrown error is caught and skips the block, a
non-array document is wrapped in a singleton list. -/
def processBlock (block : String) : Option ParsedRecipeData :=
  if block == "" then none
  else
    match parseJson block with
    | none => none
    | some data =>
        let recipes := match data with | .vArr xs => xs | v => [v]
        match processItems recipes with
        | .ok r => r
        | .error _ => none

/-- Block loop of parseJsonLdRecipe (document order, first hit wins). -/
def scanBlocks : List String → Option ParsedRecipeData
  | [] => none
  | b :: rest =>
      match processBlock b with
      | some r => some r
      | none => scanBlocks rest

/-- Abstraction of a fetched HTML document by the projections the pipeline
observes through cheerio and the tag-stripping regexes: the contents of the
script[type="application/ld+json"] blocks in document order, the OpenGraph
and description meta tags, the title element text, and the tag-stripped,
whitespace-normalized body text computed by extractTextFromHtml. -/
structure Html where
  jsonLdBlocks : List String
  ogTitleProp : Option String := none
  ogTitleName : Option String := none
  titleTag : String := ""
  ogDescProp : Option String := none
  ogDescName : Option String := none
  metaDesc : Option String := none
  strippedText : String := ""

/-- The parseJsonLdRecipe function of structured-data-parser.ts (the url
argument is used only for logging). -/
def parseJsonLdRecipe (html : Html) (_url : String) : Option ParsedRecipeData :=
  scanBlocks html.jsonLdBlocks

/-- Partial metadata produced by the OpenGraph fallback. -/
structure OgData where
  title : String
  description : String
  servings : Int
deriving DecidableEq, Repr

/-- An attribute value: a present string or undefined. -/
def optStr : Option String → Val
  | some s => .vStr s
  | none => .vUndefined

/-- The parseOpenGraphTags function: og:title falling back to the title
element, og:description falling back to the description meta tag; yields
partial data when a non-blank title exists. -/
def parseOpenGraphTags (html : Html) (_url : String) : Option OgData :=
  let title := jsOr (optStr html.ogTitleProp)
    (jsOr (optStr html.ogTitleName) (.vStr html.titleTag))
  let description := jsOr (optStr html.ogDescProp)
    (jsOr (optStr html.ogDescName) (jsOr (optStr html.metaDesc) (.vStr "")))
  if jsTruthy title && (jsTrim (jsToString title)).length > 0 then
    some { title := jsTrim (jsToString title)
           description := jsTrim (jsToString description)
           servings := 4 }
  else none

/-- The extractTextFromHtml function of ai.ts: the stripped body text when
longer than 100 characters, otherwise null. -/
def extractTextFromHtml (html : Html) : Option String :=
  if html.strippedText.length > 100 then some html.strippedText else none

/-! ## recipe-validation.ts: sanitization -/

/-- Sanitized draft shape produced by sanitizeRecipeData (imageUrls entries
and a truthy sourceUrl pass through unchecked, hence `Val`). -/
structure SanitizedRecipe where
  title : String
  description : String
  servings : Int
  ingredients : List Ingredient
  instructions : List String
  imageUrls : List Val
  sourceUrl : Option Val
deriving Repr

/-- The sanitizeString helper: trim strings, anything else becomes "". -/
def sanitizeString (value : Val) : String :=
  match value with
  | .vStr s => jsTrim s
  | _ => ""

/-- The sanitizeNumber helper: parseInt of the stringified value when
positive, otherwise the default. -/
def sanitizeNumber (value : Val) (defaultValue : Int) : Int :=
  match jsParseInt (jsToString value) with
  | some num => if num > 0 then num else defaultValue
  | none => defaultValue

/-- The sanitizeIngredients helper: keep object entries, trim their name
and quantity, drop entries whose sanitized name is empty. -/
def sanitizeIngredients (ingredients : Val) : List Ingredient :=
  match ingredients with
  | .vArr xs =>
      ((xs.filter (fun ing => jsTruthy ing && typeofObject ing)).map
        (fun ing =>
          { name := sanitizeString (getProp ing "name")
            quantity := sanitizeString (getProp ing "quantity") })).filter
        (fun ing => ing.name.length > 0)
  | _ => []

/-- The sanitizeInstructions helper: trim entries, drop empties. -/
def sanitizeInstructions (instructions : Val) : List String :=
  match instructions with
  | .vArr xs => (xs.map sanitizeString).filter (fun i => i.length > 0)
  | _ => []

/-- The sanitizeRecipeData function of recipe-validation.ts.  Property
access on a null/undefined argument throws a TypeError (modelled by the
error branch); on any other argument the function is total. -/
def sanitizeRecipeData (data : Val) : Except JsErr SanitizedRecipe :=
  if isNullish data then
    .error (.plain "TypeError: cannot read properties of null or undefined")
  else
    .ok
      { title := sanitizeString (getProp data "title")
        description := sanitizeString (getProp data "description")
        servings := sanitizeNumber (getProp data "servings") 4
        ingredients := sanitizeIngredients (getProp data "ingredients")
        instructions := sanitizeInstructions (getProp data "instructions")
        imageUrls :=
          match getProp data "imageUrls" with
          | .vArr xs => xs
          | _ => []
        sourceUrl :=
          let v := getProp data "sourceUrl"
          if jsTruthy v then some v else none }

/-! ## recipe-validation.ts: the Zod RecipeDataSchema

The Zod runtime semantics are specialized to the input type
`SanitizedRecipe` at which validateRecipeData is invoked in this
repository: the object shape is parsed key by key in definition order,
string checks run sequentially and each failing check contributes one
issue, arrays report their min/max issues before the element issues, the
url check is the URL-constructor test, and a non-string array entry yields
an invalid-type issue ("Required" when undefined). -/

/-- One Zod issue: a path and a message. -/
structure ZodIssue where
  path : List String
  message : String
deriving DecidableEq, Repr

/-- Per-element issue collection of a Zod array parse, threading the
element index for the issue paths. -/
def enumIssues {α : Type} (f : Nat → α → List ZodIssue) : Nat → List α → List ZodIssue
  | _, [] => []
  | i, x :: xs => f i x ++ enumIssues f (i + 1) xs

/-- String checks appearing in the schema. -/
inductive ZCheck where
  | minLen (n : Nat) (msg : String)
  | maxLen (n : Nat) (msg : String)
  | urlCheck
deriving Repr

/-- Run a chain of Zod string checks; every failing check appends an
issue. -/
def runZChecks (path : List String) (s : String) : List ZCheck → List ZodIssue
  | [] => []
  | c :: rest =>
      (match c with
       | .minLen n msg => if s.length < n then [⟨path, msg⟩] else []
       | .maxLen n msg => if s.length > n then [⟨path, msg⟩] else []
       | .urlCheck =>
           if urlCanParse s then [] else [⟨path, "Invalid url"⟩]) ++
      runZChecks path s rest

/-- Zod name of the parsed type of a value. -/
def zodTypeName : Val → String
  | .vStr _ => "string"
  | .vNum _ => "number"
  | .vBool _ => "boolean"
  | .vNull => "null"
  | .vUndefined => "undefined"
  | .vArr _ => "array"
  | .vObj _ => "object"

/-- z.string() with checks applied to an arbitrary value: a non-string
yields one invalid-type issue ("Required" for undefined) and the checks do
not run. -/
def zodStringVal (path : List String) (v : Val) (checks : List ZCheck) :
    List ZodIssue :=
  match v with
  | .vStr s => runZChecks path s checks
  | .vUndefined => [⟨path, "Required"⟩]
  | v => [⟨path, "Expected string, received " ++ zodTypeName v⟩]

/-- Issues of the title field: z.string().min(1, ...).max(200, ...). -/
def titleIssues (r : SanitizedRecipe) : List ZodIssue :=
  runZChecks ["title"] r.title
    [.minLen 1 "Recipe title is required", .maxLen 200 "Title too long"]

/-- Issues of the description field: z.string().min(1, ...). -/
def descriptionIssues (r : SanitizedRecipe) : List ZodIssue :=
  runZChecks ["description"] r.description
    [.minLen 1 "Recipe description is required"]

/-- Issues of the servings field: z.number().int().positive(...) — the
input is an integer by type, so only positivity can fail. -/
def servingsIssues (r : SanitizedRecipe) : List ZodIssue :=
  if r.servings > 0 then [] else [⟨["servings"], "Servings must be a positive number"⟩]

/-- Issues of the ingredients field: array min/max first, then the per
element IngredientSchema (name non-empty; quantity unchecked). -/
def ingredientsIssues (r : SanitizedRecipe) : List ZodIssue :=
  (if r.ingredients.length < 1 then
    [⟨["ingredients"], "At least one ingredient is required"⟩] else []) ++
  (if r.ingredients.length > 100 then
    [⟨["ingredients"], "Too many ingredients"⟩] else []) ++
  enumIssues (fun i ing =>
    runZChecks ["ingredients", toString i, "name"] ing.name
      [.minLen 1 "Ingredient name is required"]) 0 r.ingredients

/-- Issues of the instructions field: array min/max first, then each step
must be a non-empty string. -/
def instructionsIssues (r : SanitizedRecipe) : List ZodIssue :=
  (if r.instructions.length < 1 then
    [⟨["instructions"], "At least one instruction step is required"⟩] else []) ++
  (if r.instructions.length > 50 then
    [⟨["instructions"], "Too many instruction steps"⟩] else []) ++
  enumIssues (fun i step =>
    runZChecks ["instructions", toString i] step
      [.minLen 1 "Instruction step cannot be empty"]) 0 r.instructions

/-- Issues of the imageUrls field: z.array(z.string().url()); the array is
always present after sanitization, so the optional/default layer is
transparent. -/
def imageUrlsIssues (r : SanitizedRecipe) : List ZodIssue :=
  enumIssues (fun i v =>
    zodStringVal ["imageUrls", toString i] v [.urlCheck]) 0 r.imageUrls

/-- Issues of the optional sourceUrl field: z.string().url().optional(). -/
def sourceUrlIssues (r : SanitizedRecipe) : List ZodIssue :=
  match r.sourceUrl with
  | none => []
  | some v => zodStringVal ["sourceUrl"] v [.urlCheck]

/-- All issues of RecipeDataSchema.parse, in shape-definition order. -/
def zodIssues (r : SanitizedRecipe) : List ZodIssue :=
  titleIssues r ++ descriptionIssues r ++ servingsIssues r ++
  ingredientsIssues r ++ instructionsIssues r ++ imageUrlsIssues r ++
  sourceUrlIssues r

/-- Rendering of one issue in validateRecipeData:
path.join(".") ++ ": " ++ message. -/
def renderIssue (i : ZodIssue) : String :=
  joinSep "." i.path ++ ": " ++ i.message

/-- The validateRecipeData function of recipe-validation.ts: on success the
parsed data is returned unchanged; a ZodError becomes a
RecipeExtractionError(VALIDATION_ERROR) whose message joins all rendered
issues with ", ". -/
def validateRecipeData (data : SanitizedRecipe) :
    Except RecipeExtractionError SanitizedRecipe :=
  match zodIssues data with
  | [] => .ok data
  | issues =>
      .error
        { message := "Recipe validation failed: " ++
            joinSep ", " (issues.map renderIssue)
          code := .VALIDATION_ERROR }

/-! ## The effect monad for ai.ts

The asynchronous functions of ai.ts interact with two external
collaborators: the HTTP fetch and the generative-AI backend.  `Env` fixes
their behaviour: `http` maps a URL to a fetch outcome and `ai` answers the
n-th AI call of the run.  The monad `M` threads the AI-call counter and an
ordered event log (AI calls made, backoff waits) and propagates thrown
errors.  A `timeout` outcome models the surrounding withTimeout deadline
firing before the call resolves. -/

/-- The AI backend calls the pipeline can make, identified by call site and
arguments. -/
inductive AICall where
  | structureText (text : String)
  | transcriptSearch (url : String)
  | pageTextSearch (url : String)
  | pageTextFromContent (url : String) (text : String)
  | imageGeneration (title : String) (description : String)
deriving DecidableEq, Repr

/-- Outcome of one AI call: a resolved response (with its optional text or
image payload), a rejection, or the deadline firing first. -/
inductive AIOutcome where
  | reply (text : Option String)
  | image (data : Option String)
  | raise (e : JsErr)
  | timeout
deriving Repr

/-- Observable events of a run: AI calls, backoff waits, and invocations of
an abstract retried operation. -/
inductive Ev where
  | ai (c : AICall)
  | wait (ms : Nat)
  | op
deriving DecidableEq, Repr

/-- Outcome of the raw HTTP fetch of a URL: a 2xx response carrying the
document, a non-2xx response, a rejected fetch, or no answer before the
surrounding deadline. -/
inductive HttpOutcome where
  | success (html : Html)
  | failure (status : Nat) (statusText : String)
  | reject (msg : String)
  | hang

/-- The external collaborators. -/
structure Env where
  geminiKey : Bool
  http : String → HttpOutcome
  ai : Nat → AIOutcome

/-- Run state: AI-oracle index and event log (in order). -/
def St : Type := Nat × List Ev

/-- The pipeline monad. -/
def M (α : Type) : Type := Env → St → Except JsErr α × St

instance : Monad M where
  pure a := fun _ s => (.ok a, s)
  bind m f := fun env s =>
    match m env s with
    | (.ok a, s') => f a env s'
    | (.error e, s') => (.error e, s')

/-- Throw a JavaScript error. -/
def throwM {α : Type} (e : JsErr) : M α := fun _ s => (.error e, s)

/-- try/catch. -/
def catchM {α : Type} (m : M α) (h : JsErr → M α) : M α := fun env s =>
  match m env s with
  | (.ok a, s') => (.ok a, s')
  | (.error e, s') => h e env s'

/-- Append an event to the log. -/
def logEv (e : Ev) : M Unit := fun _ s => (.ok (), (s.1, s.2 ++ [e]))

/-- Consume the next AI-oracle outcome. -/
def nextOutcome : M AIOutcome := fun env s => (.ok (env.ai s.1), (s.1 + 1, s.2))

/-- Lift a RecipeExtractionError-returning computation. -/
def liftExtract {α : Type} : Except RecipeExtractionError α → M α
  | .ok a => pure a
  | .error e => throwM (.extraction e)

/-- Lift a JsErr-returning computation. -/
def liftJs {α : Type} : Except JsErr α → M α
  | .ok a => pure a
  | .error e => throwM e

/-- Run a pipeline computation from the empty state. -/
def runM {α : Type} (m : M α) (env : Env) : Except JsErr α × St := m env (0, [])

theorem bind_apply {α β : Type} (m : M α) (f : α → M β) (env : Env) (s : St) :
    (m >>= f) env s =
      match m env s with
      | (.ok a, s') => f a env s'
      | (.error e, s') => (.error e, s') := rfl

theorem pure_apply {α : Type} (a : α) (env : Env) (s : St) :
    (pure a : M α) env s = (.ok a, s) := rfl

/-- The getAI helper of ai.ts: throws when the GEMINI_API_KEY environment
variable is absent. -/
def getAI : M Unit := fun env s =>
  if env.geminiKey then (.ok (), s)
  else (.error (.plain "GEMINI_API_KEY environment variable is not set"), s)

/-- One generateContent call wrapped in withTimeout: logs the call, then
interprets the oracle outcome (the response text, a rethrown rejection, or
RecipeExtractionError(TIMEOUT) with the caller-supplied message when the
deadline fires first). -/
def aiGenerate (c : AICall) (timeoutMsg : String) : M (Option String) := do
  logEv (.ai c)
  let o ← nextOutcome
  match o with
  | .reply t => pure t
  | .image _ => pure none
  | .raise e => throwM e
  | .timeout => throwM (.extraction { message := timeoutMsg, code := .TIMEOUT })

/-! ## extraction-utils.ts: withRetry -/

/-- Errors the retry loop never retries: a RecipeExtractionError classified
NO_RECIPE_FOUND or VALIDATION_ERROR. -/
def nonRetryableErr (e : JsErr) : Bool :=
  match e with
  | .extraction er => er.code == .NO_RECIPE_FOUND || er.code == .VALIDATION_ERROR
  | _ => false

/-- Loop body of withRetry: `attempt` is the 0-based attempt index, the
second argument the remaining loop iterations (maxRetries - attempt).  The
zero case is the fall-through `throw lastError!` of the source, reachable
only when maxRetries = 0 (lastError is then undefined). -/
def withRetryGo {α : Type} (fn : M α) (maxRetries initialDelay : Nat) :
    Nat → Nat → M α
  | _, 0 => throwM (.plain "undefined")
  | attempt, rem + 1 =>
      catchM fn (fun e =>
        if nonRetryableErr e then throwM e
        else if attempt == maxRetries - 1 then throwM e
        else do
          logEv (.wait (initialDelay * 2 ^ attempt))
          withRetryGo fn maxRetries initialDelay (attempt + 1) rem)

/-- The withRetry function of extraction-utils.ts (source defaults:
maxRetries 3, initialDelay 1000 — call sites pass them explicitly here). -/
def withRetry {α : Type} (fn : M α) (maxRetries initialDelay : Nat) : M α :=
  withRetryGo fn maxRetries initialDelay 0 maxRetries

/-- An abstract zero-argument operation whose i-th invocation has the given
outcome; each invocation is logged as an `op` event. -/
def mkOp {α : Type} (outcomes : Nat → Except JsErr α) : M α := fun _ s =>
  let n := (s.2.filter (fun e => e == Ev.op)).length
  (outcomes n, (s.1, s.2 ++ [Ev.op]))

/-- Number of operation invocations recorded in a log. -/
def opCount (evs : List Ev) : Nat := (evs.filter (fun e => e == Ev.op)).length

/-- The backoff waits recorded in a log, in order. -/
def waitsOf (evs : List Ev) : List Nat :=
  evs.filterMap (fun e => match e with | .wait ms => some ms | _ => none)

/-- The AI calls recorded in a log, in order. -/
def aiCallsOf (evs : List Ev) : List AICall :=
  evs.filterMap (fun e => match e with | .ai c => some c | _ => none)

/-! ## ai.ts: the extraction functions -/

/-- Global replace of the markdown code fences (the /```json|```/g regex):
at each position the longer alternative is tried first. -/
def stripFences : Nat → List Char → List Char
  | 0, l => l
  | f + 1, l =>
      match l with
      | [] => []
      | c :: rest =>
          if startsWithL l ('`' :: '`' :: '`' :: 'j' :: 's' :: 'o' :: 'n' :: []) then
            stripFences f (l.drop 7)
          else if startsWithL l ('`' :: '`' :: '`' :: []) then
            stripFences f (l.drop 3)
          else c :: stripFences f rest

/-- The parseJsonResponse helper of ai.ts: reject an absent or empty
response, strip markdown fences and trim, reject when nothing remains,
then JSON.parse (its catch clause logs and rethrows, so it is
transparent). -/
def parseJsonResponse (jsonString : Option String) : Except JsErr Val :=
  match jsonString with
  | none => .error (.plain "AI response was empty or undefined.")
  | some s =>
      if s == "" then .error (.plain "AI response was empty or undefined.")
      else
        let cleanedJson := jsTrim ⟨stripFences s.data.length s.data⟩
        if cleanedJson == "" then
          .error (.plain "AI response was empty after cleaning markdown.")
        else
          match parseJson cleanedJson with
          | some v => .ok v
          | none => .error (.plain "SyntaxError: Unexpected token in JSON")

/-- Message of a thrown error (for cause recording). -/
def errMessage : JsErr → String
  | .extraction er => er.message
  | .plain m => m

/-- The structureTextToRecipe function of ai.ts: a structured-generation
call with a 20s deadline, retried up to 2 times; any failure becomes
RecipeExtractionError(PARSING_ERROR). -/
def structureTextToRecipe (text : String) : M Val :=
  catchM
    (withRetry (do
        getAI
        let t ← aiGenerate (.structureText text) "Recipe structuring timeout"
        liftJs (parseJsonResponse t)) 2 1000)
    (fun e => throwM (.extraction
      { message := "Failed to structure recipe data"
        code := .PARSING_ERROR
        cause := some (errMessage e) }))

/-- The getTranscriptFromYoutubeUrl function of ai.ts: a search-grounded
call with a 30s deadline, retried up to 2 times; an absent, sentinel or
short (under 100 characters) response is null; any thrown error is caught
and becomes null. -/
def getTranscriptFromYoutubeUrl (url : String) : M (Option String) :=
  catchM
    (withRetry (do
        getAI
        let t ← aiGenerate (.transcriptSearch url)
          "YouTube transcript extraction timeout"
        let text := t.map jsTrim
        match text with
        | none => pure none
        | some tx =>
            if tx == "" || jsToUpper tx == "ERROR" || tx.length < 100 then
              pure none
            else pure (some tx)) 2 1000)
    (fun _ => pure none)

/-- The getTextContentFromUrlWithAI function of ai.ts: retrieve recipe text
(from supplied page text, else search-grounded), treating a falsy or
sentinel response as null; a non-null text is then structured via
structureTextToRecipe; any thrown error is caught and becomes null. -/
def getTextContentFromUrlWithAI (url : String) (textContent : Option String) :
    M (Option Val) :=
  catchM
    (do
      let recipeText ← withRetry (do
          getAI
          let call := match textContent with
            | some tc => AICall.pageTextFromContent url (jsTake tc 10000)
            | none => AICall.pageTextSearch url
          let t ← aiGenerate call "AI extraction timeout"
          match t with
          | none => pure (none : Option String)
          | some s =>
              if s == "" || jsToUpper (jsTrim s) == "ERROR" then pure none
              else pure (some s)) 2 1000
      match recipeText with
      | none => pure none
      | some rt => do
          let recipeData ← structureTextToRecipe rt
          pure (some recipeData))
    (fun _ => pure none)

/-- The generateImageForRecipe function of ai.ts: one image-generation call
whose inlineData part becomes a data URL; every failure is caught and
becomes null. -/
def generateImageForRecipe (title description : String) : M (Option String) :=
  catchM
    (do
      getAI
      logEv (.ai (.imageGeneration title description))
      let o ← nextOutcome
      match o with
      | .image (some d) => pure (some ("data:image/png;base64," ++ d))
      | .image none => pure none
      | .reply _ => pure none
      | .raise e => throwM e
      | .timeout => throwM (.extraction { message := "Request timeout", code := .TIMEOUT }))
    (fun _ => pure none)

/-- The fetchHtmlContent function of structured-data-parser.ts: a non-2xx
status raises NETWORK_ERROR with the HTTP status, a rejected fetch raises
NETWORK_ERROR with the failure message. -/
def fetchHtmlContent (url : String) : M Html := fun env s =>
  match env.http url with
  | .success h => (.ok h, s)
  | .failure status statusText =>
      (.error (.extraction
        { message := "HTTP " ++ toString status ++ ": " ++ statusText
          code := .NETWORK_ERROR
          url := some url }), s)
  | .reject msg =>
      (.error (.extraction
        { message := "Failed to fetch URL: " ++ msg
          code := .NETWORK_ERROR
          url := some url
          cause := some msg }), s)
  | .hang => (.error (.plain "unreachable: handled by withTimeout"), s)

/-- fetchHtmlContent wrapped in withTimeout(…, 15000, "Timeout fetching
webpage") as in extractRecipeFromUrl: a hanging fetch raises TIMEOUT with
that message. -/
def fetchHtmlWithTimeout (url : String) : M Html := fun env s =>
  match env.http url with
  | .hang =>
      (.error (.extraction { message := "Timeout fetching webpage", code := .TIMEOUT }), s)
  | _ => fetchHtmlContent url env s

/-- The JavaScript object a ParsedRecipeData record is (for the uniform
flow into sanitizeRecipeData). -/
def parsedToVal (r : ParsedRecipeData) : Val :=
  .vObj
    [("title", r.title), ("description", r.description),
     ("servings", .vNum r.servings),
     ("ingredients", .vArr (r.ingredients.map (fun i =>
        .vObj [("name", .vStr i.name), ("quantity", .vStr i.quantity)]))),
     ("instructions", .vArr (r.instructions.map .vStr))]

/-- Tier 3 of extractRecipeFromUrl: search-grounded AI extraction; when it
too yields nothing, NO_RECIPE_FOUND is raised. -/
def extractTier3 (normalizedUrl : String) : M Val := do
  let aiRecipe ← getTextContentFromUrlWithAI normalizedUrl none
  match aiRecipe with
  | some r => pure r
  | none =>
      throwM (.extraction
        { message := "No recipe found on this page. Please make sure the URL contains a recipe."
          code := .NO_RECIPE_FOUND
          url := some normalizedUrl })

/-- The extractRecipeFromUrl function of ai.ts: normalize the URL (outside
the try), fetch the page with a 15s deadline, try JSON-LD (tier 1), then
OpenGraph metadata plus AI over the page text (tier 2), then search-
grounded AI extraction (tier 3); any non-classified error becomes
PARSING_ERROR. -/
def extractRecipeFromUrl (url : String) : M Val := do
  let normalizedUrl ← liftExtract (normalizeUrl url)
  catchM
    (do
      let html ← fetchHtmlWithTimeout normalizedUrl
      match parseJsonLdRecipe html normalizedUrl with
      | some jsonLdRecipe => pure (parsedToVal jsonLdRecipe)
      | none =>
          match parseOpenGraphTags html normalizedUrl with
          | some ogData =>
              if ogData.title ≠ "" then
                match extractTextFromHtml html with
                | some textContent => do
                    let aiRecipe ← getTextContentFromUrlWithAI normalizedUrl
                      (some textContent)
                    (match aiRecipe with
                     | some r => pure r
                     | none => extractTier3 normalizedUrl)
                | none => extractTier3 normalizedUrl
              else extractTier3 normalizedUrl
          | none => extractTier3 normalizedUrl)
    (fun e =>
      match e with
      | .extraction _ => throwM e
      | .plain m =>
          throwM (.extraction
            { message := "Failed to extract recipe: " ++ m
              code := .PARSING_ERROR
              url := some normalizedUrl
              cause := some m }))

/-- The generateRecipeFromUrl orchestrator of ai.ts: extract, sanitize,
validate, then attach a generated image (non-fatal); a
RecipeExtractionError is converted to a plain Error carrying its message at
this boundary. -/
def generateRecipeFromUrl (url : String) : M SanitizedRecipe :=
  catchM
    (do
      let recipeData ← extractRecipeFromUrl url
      if !jsTruthy recipeData then
        throwM (.extraction
          { message := "Failed to extract recipe from URL"
            code := .NO_RECIPE_FOUND
            url := some url })
      else do
        let sanitized ← liftJs (sanitizeRecipeData recipeData)
        let validated ← liftExtract (validateRecipeData sanitized)
        let generatedImage ← generateImageForRecipe validated.title
          validated.description
        let finalImageUrls :=
          match generatedImage with
          | some img => [Val.vStr img]
          | none => []
        pure { validated with imageUrls := finalImageUrls })
    (fun e =>
      match e with
      | .extraction er => throwM (.plain er.message)
      | _ => throwM e)

/-- Identifier character class of the video-id pattern: [^"&?/ ]. -/
def ytIdClass (c : Char) : Bool :=
  !(c == '"' || c == '&' || c == '?' || c == '/' || c == ' ')

/-- The video-id pattern of getYoutubeVideoId:
(?:youtube\.com\/(?:[^/]+\/.+\/|(?:v|e(?:mbed)?)\/|.*[?&]v=)|youtu\.be\/)([^"&?/ ]{11}) -/
def ytRE : RE :=
  .seq
    (.alt
      (.seq (litS "youtube.com/")
        (altList
          [seqList [rePlus (.cls (fun c => c ≠ '/')), litS "/", rePlus reDot, litS "/"],
           seqList [.alt (litS "v") (.seq (litS "e") (.opt (litS "mbed"))), litS "/"],
           seqList [.star reDot, .cls (fun c => c == '?' || c == '&'), litS "v="]]))
      (litS "youtu.be/"))
    (.grp 1 (repN 11 (.cls ytIdClass)))

/-- Unanchored regex search: try successive start positions left to
right. -/
def reSearch (re : RE) (fuel : Nat) : List Char → Option (List (Nat × List Char))
  | [] => reMatch fuel re [] [] (fun _ caps => some caps)
  | c :: rest =>
      match reMatch fuel re (c :: rest) [] (fun _ caps => some caps) with
      | some caps => some caps
      | none => reSearch re fuel rest

/-- The getYoutubeVideoId function of ai.ts. -/
def getYoutubeVideoId (url : String) : Option String :=
  match reSearch ytRE (reFuel url.data.length) url.data with
  | some caps =>
      (match capGet caps 1 with
       | some l => some ⟨l⟩
       | none => none)
  | none => none

/-- The generateRecipeFromYoutubeUrl orchestrator of ai.ts: transcript,
structure, sanitize, validate, then attach the video thumbnail (or a
generated image when no video id parses); a RecipeExtractionError is
converted to a plain Error carrying its message at this boundary. -/
def generateRecipeFromYoutubeUrl (url : String) : M SanitizedRecipe :=
  catchM
    (do
      let transcript ← getTranscriptFromYoutubeUrl url
      match transcript with
      | none =>
          throwM (.extraction
            { message := "Failed to retrieve transcript from YouTube video. The video may not have captions or may not contain a recipe."
              code := .NO_RECIPE_FOUND
              url := some url })
      | some t => do
          let recipeData ← structureTextToRecipe t
          let sanitized ← liftJs (sanitizeRecipeData recipeData)
          let validated ← liftExtract (validateRecipeData sanitized)
          let finalImageUrls ← (
            match getYoutubeVideoId url with
            | some videoId =>
                pure [Val.vStr ("https://img.youtube.com/vi/" ++ videoId ++ "/maxresdefault.jpg")]
            | none => do
                let generatedImage ← generateImageForRecipe validated.title
                  validated.description
                match generatedImage with
                | some img => pure [Val.vStr img]
                | none => pure ([] : List Val))
          pure { validated with imageUrls := finalImageUrls })
    (fun e =>
      match e with
      | .extraction er => throwM (.plain er.message)
      | _ => throwM e)

/-! ## Lemma layer: strings and trimming -/

theorem data_append (a b : String) : (a ++ b).data = a.data ++ b.data := by
  cases a; cases b; rfl

theorem dropWhile_head_false {p : Char → Bool} (l : List Char) :
    ∀ c m', l.dropWhile p = c :: m' → p c = false := by
  induction l with
  | nil => intro c m' h; simp [List.dropWhile] at h
  | cons a as ih =>
      intro c m' h
      by_cases hp : p a
      · rw [List.dropWhile_cons_of_pos hp] at h; exact ih c m' h
      · rw [List.dropWhile_cons_of_neg hp] at h
        cases h; simpa using hp

theorem dropWhile_eq_self_of_head {p : Char → Bool} {l : List Char}
    (h : ∀ c m', l = c :: m' → p c = false) : l.dropWhile p = l := by
  cases l with
  | nil => rfl
  | cons c m' =>
      exact List.dropWhile_cons_of_neg (by simpa using h c m' rfl)

theorem dropWhile_all_append {p : Char → Bool} {l : List Char} (r : List Char)
    (h : ∀ c ∈ l, p c = true) : (l ++ r).dropWhile p = r.dropWhile p := by
  induction l with
  | nil => rfl
  | cons a as ih =>
      have ha : p a = true := h a (by simp)
      simp only [List.cons_append, List.dropWhile_cons_of_pos ha]
      exact ih (fun c hc => h c (by simp [hc]))

theorem jsTrimL_eq (l : List Char) :
    jsTrimL l = List.rdropWhile jsWhite (l.dropWhile jsWhite) := by
  simp [jsTrimL, List.rdropWhile]

theorem jsTrimL_idem (l : List Char) : jsTrimL (jsTrimL l) = jsTrimL l := by
  rw [jsTrimL_eq, jsTrimL_eq]
  generalize hm : l.dropWhile jsWhite = m
  have hmm : m.dropWhile jsWhite = m := by
    rw [← hm]; exact List.dropWhile_idempotent jsWhite l
  cases hcase : List.rdropWhile jsWhite m with
  | nil => simp [List.rdropWhile]
  | cons c t =>
      have hfix : List.rdropWhile jsWhite m <+: m := List.rdropWhile_prefix jsWhite m
      rw [hcase] at hfix
      obtain ⟨r, hr⟩ := hfix
      have hm' : m = c :: (t ++ r) := by simpa using hr.symm
      have hc : jsWhite c = false :=
        dropWhile_head_false m c (t ++ r) (by rw [hmm]; exact hm')
      have h1 : (c :: t).dropWhile jsWhite = c :: t :=
        List.dropWhile_cons_of_neg (by simp [hc])
      rw [h1, ← hcase, List.rdropWhile_idempotent]

theorem jsTrim_idem (s : String) : jsTrim (jsTrim s) = jsTrim s := by
  have : (jsTrim s).data = jsTrimL s.data := rfl
  simp only [jsTrim, this, jsTrimL_idem]

theorem length_dropWhile_le (p : Char → Bool) (l : List Char) :
    (l.dropWhile p).length ≤ l.length := by
  induction l with
  | nil => simp [List.dropWhile]
  | cons a as ih =>
      by_cases hp : p a
      · rw [List.dropWhile_cons_of_pos hp]
        exact Nat.le_trans ih (by simp)
      · rw [List.dropWhile_cons_of_neg hp]

theorem jsTrimL_length_le (l : List Char) : (jsTrimL l).length ≤ l.length := by
  simp only [jsTrimL, List.length_reverse]
  calc ((l.dropWhile jsWhite).reverse.dropWhile jsWhite).length
      ≤ (l.dropWhile jsWhite).reverse.length := length_dropWhile_le _ _
    _ = (l.dropWhile jsWhite).length := List.length_reverse _
    _ ≤ l.length := length_dropWhile_le _ _

theorem jsTrim_length_le (s : String) : (jsTrim s).length ≤ s.length :=
  jsTrimL_length_le s.data

theorem jsTrim_empty : jsTrim "" = "" := rfl

/-! ## Lemma layer: substring occurrence and joins -/

theorem startsWithL_nil (l : List Char) : startsWithL l [] = true := by
  cases l <;> rfl

theorem startsWithL_self (l : List Char) : startsWithL l l = true := by
  induction l with
  | nil => rfl
  | cons c cs ih => simp [startsWithL, ih]

theorem startsWithL_append_self (p r : List Char) : startsWithL (p ++ r) p = true := by
  induction p with
  | nil => simpa using startsWithL_nil r
  | cons c cs ih => simp [startsWithL, ih]

theorem startsWithL_mono : ∀ (q l p : List Char),
    startsWithL l p = true → startsWithL p q = true → startsWithL l q = true := by
  intro q
  induction q with
  | nil => intro l p _ _; cases l <;> rfl
  | cons d ds ih =>
      intro l p hlp hpq
      cases p with
      | nil => simp [startsWithL] at hpq
      | cons e es =>
          cases l with
          | nil => simp [startsWithL] at hlp
          | cons c cs =>
              simp only [startsWithL, Bool.and_eq_true, beq_iff_eq] at hlp hpq ⊢
              exact ⟨hlp.1.trans hpq.1, ih cs es hlp.2 hpq.2⟩

theorem containsSubL_of_startsWithL {l p : List Char} (h : startsWithL l p = true) :
    containsSubL l p = true := by
  cases l <;> simp [containsSubL, h]

theorem containsSubL_cons {cs p : List Char} (c : Char)
    (h : containsSubL cs p = true) : containsSubL (c :: cs) p = true := by
  simp [containsSubL, h]

theorem containsSubL_append_right (a : List Char) {b x : List Char}
    (h : containsSubL b x = true) : containsSubL (a ++ b) x = true := by
  induction a with
  | nil => simpa using h
  | cons c cs ih => exact containsSubL_cons c ih

theorem containsSubL_mono {l p q : List Char} (h : containsSubL l p = true)
    (hpq : startsWithL p q = true) : containsSubL l q = true := by
  induction l with
  | nil =>
      simp only [containsSubL] at h ⊢
      exact startsWithL_mono q [] p h hpq
  | cons c cs ih =>
      simp only [containsSubL, Bool.or_eq_true] at h ⊢
      rcases h with h | h
      · exact Or.inl (startsWithL_mono q (c :: cs) p h hpq)
      · exact Or.inr (ih h)

theorem containsSub_joinSep_mem (sep : String) :
    ∀ (parts : List String) (x : String), x ∈ parts →
      containsSubL (joinSep sep parts).data x.data = true := by
  intro parts
  induction parts with
  | nil => intro x hx; simp at hx
  | cons y rest ih =>
      intro x hx
      cases rest with
      | nil =>
          simp at hx
          subst hx
          exact containsSubL_of_startsWithL (startsWithL_self _)
      | cons z rest' =>
          rcases List.mem_cons.mp hx with rfl | hmem
          · rw [joinSep, data_append, data_append, List.append_assoc]
            exact containsSubL_of_startsWithL (startsWithL_append_self _ _)
          · rw [joinSep, data_append, data_append, List.append_assoc]
            exact containsSubL_append_right _
              (containsSubL_append_right _ (ih x hmem))

/-! ## Lemma layer: decimal rendering round trip -/

theorem digitsToNat_append (l1 : List Char) (l2 : List Char)
    (h1 : ∀ c ∈ l1, c.isDigit = true) :
    ∀ acc, digitsToNat acc (l1 ++ l2) = digitsToNat (digitsToNat acc l1) l2 := by
  induction l1 with
  | nil => intro acc; rfl
  | cons c cs ih =>
      intro acc
      have hc : c.isDigit = true := h1 c (by simp)
      simp only [List.cons_append, digitsToNat, hc, if_true]
      exact ih (fun d hd => h1 d (by simp [hd])) _

theorem digitChar_isDigit {x : Nat} (h : x < 10) : (digitChar x).isDigit = true := by
  interval_cases x <;> decide

theorem digitChar_toNat {x : Nat} (h : x < 10) : (digitChar x).toNat - 48 = x := by
  interval_cases x <;> decide

theorem natToDecF_spec : ∀ f n, n < f →
    (∀ c ∈ natToDecF f n, c.isDigit = true) ∧ natToDecF f n ≠ [] ∧
    ∀ acc, ∃ k, 0 < k ∧ digitsToNat acc (natToDecF f n) = acc * 10 ^ k + n := by
  intro f
  induction f with
  | zero => intro n h; omega
  | succ f ih =>
      intro n hn
      by_cases hsmall : n < 10
      · refine ⟨?_, ?_, ?_⟩
        · intro c hc
          simp only [natToDecF, if_pos hsmall] at hc
          simp at hc
          subst hc
          exact digitChar_isDigit hsmall
        · simp [natToDecF, if_pos hsmall]
        · intro acc
          refine ⟨1, Nat.one_pos, ?_⟩
          simp only [natToDecF, if_pos hsmall, digitsToNat, digitChar_isDigit hsmall,
            if_true, digitChar_toNat hsmall]
          simp [Nat.pow_one]
      · have h10 : 10 ≤ n := Nat.le_of_not_lt hsmall
        have hdiv : n / 10 < f := by
          have h1 : n / 10 < n := Nat.div_lt_self (by omega) (by omega)
          omega
        obtain ⟨ihd, ihne, ihval⟩ := ih (n / 10) hdiv
        have hmod : n % 10 < 10 := Nat.mod_lt n (by omega)
        refine ⟨?_, ?_, ?_⟩
        · intro c hc
          simp only [natToDecF, if_neg hsmall] at hc
          rcases List.mem_append.mp hc with hc | hc
          · exact ihd c hc
          · simp at hc; subst hc; exact digitChar_isDigit hmod
        · simp [natToDecF, if_neg hsmall]
        · intro acc
          obtain ⟨k, hk, hval⟩ := ihval acc
          refine ⟨k + 1, by omega, ?_⟩
          rw [natToDecF, if_neg hsmall, digitsToNat_append _ _ ihd, hval]
          simp only [digitsToNat, digitChar_isDigit hmod, if_true,
            digitChar_toNat hmod]
          have : 10 * (n / 10) + n % 10 = n := Nat.div_add_mod n 10
          ring_nf
          omega

theorem digit_ne_of {c d : Char} (h : c.isDigit = true) (hd : d.isDigit = false) :
    c ≠ d := by
  intro he
  rw [he] at h
  rw [h] at hd
  cases hd

theorem digit_not_white {c : Char} (h : c.isDigit = true) : jsWhite c = false := by
  simp only [jsWhite, Bool.or_eq_false_iff, beq_eq_false_iff_ne]
  repeat' apply And.intro
  all_goals exact digit_ne_of h (by decide)

theorem leadingDigits_all {l : List Char} (h : ∀ c ∈ l, c.isDigit = true) :
    leadingDigits l = l.length := by
  induction l with
  | nil => rfl
  | cons c cs ih =>
      simp only [leadingDigits, h c (by simp), if_true, List.length_cons]
      rw [ih (fun d hd => h d (by simp [hd]))]

theorem jsParseInt_natToDec (n : Nat) : jsParseInt ⟨natToDec n⟩ = some (Int.ofNat n) := by
  obtain ⟨hdig, hne, hval⟩ := natToDecF_spec (n + 1) n (Nat.lt_succ_self n)
  obtain ⟨k, _, hv0⟩ := hval 0
  have hdata : (String.mk (natToDec n)).data = natToDecF (n + 1) n := rfl
  cases hl : natToDecF (n + 1) n with
  | nil => exact absurd hl hne
  | cons c cs =>
      have hc : c.isDigit = true := hdig c (by rw [hl]; simp)
      have hdrop : dropWhiteL (c :: cs) = c :: cs :=
        List.dropWhile_cons_of_neg (by simp [digit_not_white hc])
      have hcminus : c ≠ '-' := digit_ne_of hc (by decide)
      have hcplus : c ≠ '+' := digit_ne_of hc (by decide)
      have hlead : leadingDigits (c :: cs) = cs.length + 1 := by
        rw [leadingDigits_all (by rw [← hl]; exact hdig)]
        simp
      have hv : digitsToNat 0 (c :: cs) = n := by
        rw [← hl, hv0]; simp
      rw [jsParseInt, hdata, hl]
      simp only [hdrop]
      split
      · next rest heq =>
          exfalso
          apply hcminus
          have h2 := congrArg (fun l => l.head?) heq
          simp only [List.head?] at h2
          exact Option.some.inj h2
      · next rest heq =>
          exfalso
          apply hcplus
          have h2 := congrArg (fun l => l.head?) heq
          simp only [List.head?] at h2
          exact Option.some.inj h2
      · rw [hlead, hv]
        simp

theorem natToDecF_length_le : ∀ f n k, n < f → 0 < k → n < 10 ^ k →
    (natToDecF f n).length ≤ k := by
  intro f
  induction f with
  | zero => intro n k h; omega
  | succ f ih =>
      intro n k hn hk hnk
      by_cases hsmall : n < 10
      · simp only [natToDecF, if_pos hsmall]
        simpa using hk
      · have hk2 : 2 ≤ k := by
          by_contra hcon
          have hk1 : k = 1 := by omega
          rw [hk1] at hnk
          omega
        have hdiv : n / 10 < f := by omega
        have hpow : n / 10 < 10 ^ (k - 1) := by
          have h10 : 10 ^ k = 10 ^ (k - 1) * 10 := by
            rw [← pow_succ]
            congr 1
            omega
          rw [h10] at hnk
          omega
        have hrec := ih (n / 10) (k - 1) hdiv (by omega) hpow
        simp only [natToDecF, if_neg hsmall, List.length_append,
          List.length_singleton]
        omega

/-- Below 1e21 the JavaScript rendering of a natural number is its plain
decimal expansion. -/
theorem jsNatToString_small (n : Nat) (h : n < 10 ^ 21) :
    jsNatToString n = natToDec n := by
  unfold jsNatToString
  have hlen : (natToDec n).length ≤ 21 :=
    natToDecF_length_le (n + 1) n 21 (Nat.lt_succ_self n) (by norm_num) h
  rw [if_pos hlen]

/-! ## Claim C9: URL normalization -/

/-- Spec-side: does the string carry a URL scheme (letter, scheme
characters, colon)? -/
def hasScheme (s : String) : Bool := (schemeSplit s.data).isSome

/-- Spec-side: the string normalizeUrl hands to the URL constructor —
https:// is prepended exactly when the input starts with neither http://
nor https://. -/
def withHttpsPrefix (url : String) : String :=
  if !jsStartsWith url "http://" && !jsStartsWith url "https://" then
    "https://" ++ url
  else url

theorem normalizeUrl_eq (url : String) :
    normalizeUrl url =
      (if urlCanParse (withHttpsPrefix url) then .ok (withHttpsPrefix url)
       else .error { message := "Invalid URL format", code := .VALIDATION_ERROR,
                     url := some (withHttpsPrefix url) }) := rfl

theorem jsStartsWith_append (p r : String) : jsStartsWith (p ++ r) p = true := by
  simp only [jsStartsWith, data_append]
  exact startsWithL_append_self p.data r.data

/-- Claim C9, counterexample: the input "ftp://example.com" carries a URL
scheme, yet normalizeUrl prepends https:// to it (and the result parses),
so "prepends https:// exactly when no scheme is present" is false as
stated. -/
theorem C9_counterexample :
    hasScheme "ftp://example.com" = true ∧
    normalizeUrl "ftp://example.com" = .ok "https://ftp://example.com" := by
  constructor
  · decide
  · rfl

/-- Claim C9 (amended): normalizeUrl prepends https:// exactly when the
input starts with neither http:// nor https:// (withHttpsPrefix); the
prefixed string is returned when the URL constructor accepts it and a
VALIDATION_ERROR RecipeExtractionError is raised otherwise; and
normalization is idempotent: normalizing a successful output returns it
unchanged. -/
theorem C9_normalizeUrl_amended (url : String) :
    (normalizeUrl url = .ok (withHttpsPrefix url) ∨
      (urlCanParse (withHttpsPrefix url) = false ∧
        normalizeUrl url = .error
          { message := "Invalid URL format", code := .VALIDATION_ERROR,
            url := some (withHttpsPrefix url) })) ∧
    (∀ u, normalizeUrl url = .ok u → normalizeUrl u = .ok u) := by
  constructor
  · rw [normalizeUrl_eq]
    by_cases hc : urlCanParse (withHttpsPrefix url) = true
    · left; simp [hc]
    · right
      have hc' : urlCanParse (withHttpsPrefix url) = false := by
        cases h : urlCanParse (withHttpsPrefix url)
        · rfl
        · exact absurd h hc
      simp [hc']
  · intro u hu
    rw [normalizeUrl_eq] at hu
    by_cases hc : urlCanParse (withHttpsPrefix url) = true
    · rw [if_pos hc] at hu
      have hu' : u = withHttpsPrefix url := by
        injection hu with h
        exact h.symm
      have hstart : jsStartsWith u "https://" = true ∨ jsStartsWith u "http://" = true := by
        rw [hu']
        unfold withHttpsPrefix
        by_cases h1 : (!jsStartsWith url "http://" && !jsStartsWith url "https://") = true
        · rw [if_pos h1]
          exact Or.inl (jsStartsWith_append "https://" url)
        · rw [if_neg h1]
          by_cases ha : jsStartsWith url "http://" = true
          · exact Or.inr ha
          · by_cases hb : jsStartsWith url "https://" = true
            · exact Or.inl hb
            · exact absurd (by simp [Bool.not_eq_true] at ha hb; simp [ha, hb]) h1
      have hpre : withHttpsPrefix u = u := by
        unfold withHttpsPrefix
        rcases hstart with h | h <;> simp [h]
      rw [normalizeUrl_eq, hpre, hu', hc]
      simp
    · rw [if_neg hc] at hu
      cases hu

/-- Claim C9 witness: instantiating the amended theorem at the concrete
input "example.com" — its normalization "https://example.com" renormalizes
to itself. -/
theorem C9_witness : normalizeUrl "https://example.com" = .ok "https://example.com" :=
  (C9_normalizeUrl_amended "example.com").2 "https://example.com" rfl

/-! ## Claim C2: classified errors are never retried -/

/-- Claim C2: for every maxRetries ≥ 1, an operation whose first
invocation raises a RecipeExtractionError classified NO_RECIPE_FOUND or
VALIDATION_ERROR is invoked exactly once by withRetry, the same error is
re-raised, and no backoff wait happens (the final log holds exactly the one
invocation event). -/
theorem C2_retry_classified_error_single_invocation {α : Type}
    (maxRetries initialDelay : Nat) (hm : 1 ≤ maxRetries)
    (outcomes : Nat → Except JsErr α) (er : RecipeExtractionError)
    (h0 : outcomes 0 = .error (.extraction er))
    (hcode : er.code = .NO_RECIPE_FOUND ∨ er.code = .VALIDATION_ERROR)
    (env : Env) :
    runM (withRetry (mkOp outcomes) maxRetries initialDelay) env =
      (.error (.extraction er), (0, [Ev.op])) := by
  obtain ⟨m, rfl⟩ : ∃ m, maxRetries = m + 1 := ⟨maxRetries - 1, by omega⟩
  have hnr : nonRetryableErr (.extraction er) = true := by
    rcases hcode with h | h <;> simp [nonRetryableErr, h]
  have hop : mkOp outcomes env (0, []) = (.error (.extraction er), (0, [Ev.op])) := by
    simp [mkOp, h0]
  rw [runM, withRetry, withRetryGo, catchM, hop]
  simp [hnr, throwM]

/-- Claim C2 witness: a concrete operation always raising
NO_RECIPE_FOUND, with maxRetries 3 — one invocation, no waits. -/
theorem C2_witness :
    runM (withRetry (mkOp (fun _ => (.error (.extraction
        { message := "no recipe", code := .NO_RECIPE_FOUND }) : Except JsErr Nat)))
      3 1000)
      { geminiKey := true, http := fun _ => .hang, ai := fun _ => .reply none } =
      (.error (.extraction { message := "no recipe", code := .NO_RECIPE_FOUND }),
        (0, [Ev.op])) :=
  C2_retry_classified_error_single_invocation 3 1000 (by decide) _ _ rfl
    (Or.inl rfl) _

/-! ## Claim C3: transient failures are retried with exponential backoff -/

theorem opCount_append (a b : List Ev) : opCount (a ++ b) = opCount a + opCount b := by
  simp [opCount, List.filter_append]

theorem waitsOf_append (a b : List Ev) : waitsOf (a ++ b) = waitsOf a ++ waitsOf b := by
  simp [waitsOf]

theorem mkOp_run {α : Type} (outcomes : Nat → Except JsErr α) (env : Env)
    (i : Nat) (evs : List Ev) :
    mkOp outcomes env (i, evs) = (outcomes (opCount evs), (i, evs ++ [Ev.op])) := rfl

theorem opCount_op_wait (w : Nat) : opCount [Ev.op, Ev.wait w] = 1 := rfl

theorem waitsOf_op_wait (w : Nat) : waitsOf [Ev.op, Ev.wait w] = [w] := rfl

theorem waits_shift (d attempt k : Nat) :
    (d * 2 ^ attempt) :: (List.range k).map (fun j => d * 2 ^ (attempt + 1 + j)) =
    (List.range (k + 1)).map (fun j => d * 2 ^ (attempt + j)) := by
  rw [List.range_succ_eq_map, List.map_cons, List.map_map]
  have h1 : d * 2 ^ attempt = d * 2 ^ (attempt + 0) := by rw [Nat.add_zero]
  have h2 : ((fun j => d * 2 ^ (attempt + j)) ∘ Nat.succ) =
      (fun j => d * 2 ^ (attempt + 1 + j)) := by
    funext a
    simp only [Function.comp_apply, Nat.succ_eq_add_one]
    have h : attempt + (a + 1) = attempt + 1 + a := by omega
    rw [h]
  rw [← h1, h2]

/-- Success case of the retry loop, generalized over the loop position. -/
theorem withRetryGo_success {α : Type} (outcomes : Nat → Except JsErr α)
    (maxRetries initialDelay : Nat) (v : α) (env : Env) :
    ∀ k rem attempt i evs,
      attempt + rem = maxRetries →
      k < rem →
      (∀ j, j < k → ∃ e, outcomes (opCount evs + j) = .error e ∧
        nonRetryableErr e = false) →
      outcomes (opCount evs + k) = .ok v →
      ∃ evs',
        withRetryGo (mkOp outcomes) maxRetries initialDelay attempt rem env (i, evs) =
          (.ok v, (i, evs ++ evs')) ∧
        opCount evs' = k + 1 ∧
        waitsOf evs' = (List.range k).map (fun j => initialDelay * 2 ^ (attempt + j)) := by
  intro k
  induction k with
  | zero =>
      intro rem attempt i evs hsum hlt _ hok
      obtain ⟨r, rfl⟩ : ∃ r, rem = r + 1 := ⟨rem - 1, by omega⟩
      refine ⟨[Ev.op], ?_, by simp [opCount], by simp [waitsOf]⟩
      rw [withRetryGo, catchM, mkOp_run]
      simp only [Nat.add_zero] at hok
      rw [hok]
  | succ k ih =>
      intro rem attempt i evs hsum hlt hfail hok
      obtain ⟨r, rfl⟩ : ∃ r, rem = r + 1 := ⟨rem - 1, by omega⟩
      have hklt : k < r := by omega
      obtain ⟨e0, he0, hnr0⟩ := hfail 0 (by omega)
      have hnotlast : (attempt == maxRetries - 1) = false := by
        have : attempt + (r + 1) = maxRetries := hsum
        have hr1 : 1 ≤ r := by omega
        simp only [beq_eq_false_iff_ne]
        omega
      have hevs2 : opCount (evs ++ [Ev.op, Ev.wait (initialDelay * 2 ^ attempt)]) =
          opCount evs + 1 := by
        rw [opCount_append]; rfl
      have hfail2 : ∀ j, j < k →
          ∃ e, outcomes (opCount (evs ++ [Ev.op, Ev.wait (initialDelay * 2 ^ attempt)]) + j)
            = .error e ∧ nonRetryableErr e = false := by
        intro j hj
        rw [hevs2]
        obtain ⟨e, he, hn⟩ := hfail (j + 1) (by omega)
        exact ⟨e, by rw [← he]; ring_nf, hn⟩
      have hok2 : outcomes (opCount (evs ++ [Ev.op, Ev.wait (initialDelay * 2 ^ attempt)]) + k)
          = .ok v := by
        rw [hevs2]
        rw [← hok]; ring_nf
      obtain ⟨evs3, hrun, hcnt, hwaits⟩ :=
        ih r (attempt + 1) i (evs ++ [Ev.op, Ev.wait (initialDelay * 2 ^ attempt)])
          (by omega) hklt hfail2 hok2
      refine ⟨[Ev.op, Ev.wait (initialDelay * 2 ^ attempt)] ++ evs3, ?_, ?_, ?_⟩
      · rw [withRetryGo, catchM, mkOp_run]
        simp only [Nat.add_zero] at he0
        rw [he0]
        simp only [hnr0, Bool.false_eq_true, if_false, hnotlast]
        have hbind :
            (do
              logEv (Ev.wait (initialDelay * 2 ^ attempt))
              withRetryGo (mkOp outcomes) maxRetries initialDelay (attempt + 1) r)
              env (i, evs ++ [Ev.op]) =
            withRetryGo (mkOp outcomes) maxRetries initialDelay (attempt + 1) r env
              (i, evs ++ [Ev.op, Ev.wait (initialDelay * 2 ^ attempt)]) := by
          show (withRetryGo (mkOp outcomes) maxRetries initialDelay (attempt + 1) r) env
              (i, (evs ++ [Ev.op]) ++ [Ev.wait (initialDelay * 2 ^ attempt)]) = _
          rw [List.append_assoc]
          rfl
        rw [hbind, hrun]
        simp [List.append_assoc]
      · rw [opCount_append, hcnt, opCount_op_wait]; omega
      · rw [waitsOf_append, hwaits, waitsOf_op_wait]
        simpa using waits_shift initialDelay attempt k

/-- Exhaustion case of the retry loop, generalized over the loop
position. -/
theorem withRetryGo_exhaust {α : Type} (outcomes : Nat → Except JsErr α)
    (maxRetries initialDelay : Nat) (e : Nat → JsErr) (env : Env) :
    ∀ rem attempt i evs,
      attempt + rem = maxRetries →
      1 ≤ rem →
      (∀ j, j < rem → outcomes (opCount evs + j) = .error (e (opCount evs + j)) ∧
        nonRetryableErr (e (opCount evs + j)) = false) →
      ∃ evs',
        withRetryGo (mkOp outcomes) maxRetries initialDelay attempt rem env (i, evs) =
          (.error (e (opCount evs + rem - 1)), (i, evs ++ evs')) ∧
        opCount evs' = rem ∧
        waitsOf evs' = (List.range (rem - 1)).map (fun j => initialDelay * 2 ^ (attempt + j)) := by
  intro rem
  induction rem with
  | zero => intro attempt i evs _ h1 _; omega
  | succ r ih =>
      intro attempt i evs hsum _ hfail
      obtain ⟨he0, hnr0⟩ := hfail 0 (by omega)
      simp only [Nat.add_zero] at he0 hnr0
      cases r with
      | zero =>
          have hlast : (attempt == maxRetries - 1) = true := by
            simp only [beq_iff_eq]; omega
          refine ⟨[Ev.op], ?_, by simp [opCount], by simp [waitsOf]⟩
          rw [withRetryGo, catchM, mkOp_run, he0]
          simp [hnr0, hlast, throwM]
      | succ r' =>
          have hnotlast : (attempt == maxRetries - 1) = false := by
            simp only [beq_eq_false_iff_ne]; omega
          have hevs2 : opCount (evs ++ [Ev.op, Ev.wait (initialDelay * 2 ^ attempt)]) =
              opCount evs + 1 := by
            rw [opCount_append]; rfl
          have hfail2 : ∀ j, j < r' + 1 →
              outcomes (opCount (evs ++ [Ev.op, Ev.wait (initialDelay * 2 ^ attempt)]) + j)
                = .error (e (opCount (evs ++ [Ev.op, Ev.wait (initialDelay * 2 ^ attempt)]) + j)) ∧
              nonRetryableErr (e (opCount (evs ++ [Ev.op, Ev.wait (initialDelay * 2 ^ attempt)]) + j))
                = false := by
            intro j hj
            rw [hevs2]
            have := hfail (j + 1) (by omega)
            have harith : opCount evs + (j + 1) = opCount evs + 1 + j := by omega
            rw [harith] at this
            exact this
          obtain ⟨evs3, hrun, hcnt, hwaits⟩ :=
            ih (attempt + 1) i (evs ++ [Ev.op, Ev.wait (initialDelay * 2 ^ attempt)])
              (by omega) (by omega) hfail2
          refine ⟨[Ev.op, Ev.wait (initialDelay * 2 ^ attempt)] ++ evs3, ?_, ?_, ?_⟩
          · rw [withRetryGo, catchM, mkOp_run, he0]
            simp only [hnr0, Bool.false_eq_true, if_false, hnotlast]
            have hbind :
                (do
                  logEv (Ev.wait (initialDelay * 2 ^ attempt))
                  withRetryGo (mkOp outcomes) maxRetries initialDelay (attempt + 1) (r' + 1))
                  env (i, evs ++ [Ev.op]) =
                withRetryGo (mkOp outcomes) maxRetries initialDelay (attempt + 1) (r' + 1) env
                  (i, evs ++ [Ev.op, Ev.wait (initialDelay * 2 ^ attempt)]) := by
              show (withRetryGo (mkOp outcomes) maxRetries initialDelay (attempt + 1) (r' + 1)) env
                  (i, (evs ++ [Ev.op]) ++ [Ev.wait (initialDelay * 2 ^ attempt)]) = _
              rw [List.append_assoc]
              rfl
            rw [hbind, hrun]
            rw [hevs2]
            have harith : opCount evs + 1 + (r' + 1) - 1 = opCount evs + (r' + 1 + 1) - 1 := by
              omega
            rw [harith, List.append_assoc]
          · rw [opCount_append, hcnt, opCount_op_wait]; omega
          · rw [waitsOf_append, hwaits, waitsOf_op_wait]
            have h2 : r' + 1 + 1 - 1 = (r' + 1 - 1) + 1 := by omega
            rw [h2]
            simpa using waits_shift initialDelay attempt (r' + 1 - 1)

/-- Claim C3: for maxRetries = n ≥ 1 and an operation whose failures are
not classified NO_RECIPE_FOUND/VALIDATION_ERROR, (a) if the first k < n
invocations fail and invocation k+1 succeeds, withRetry returns the success
value after exactly k+1 invocations, having waited
initialDelay * 2^attemptIndex before each re-invocation; (b) if all n
invocations fail, withRetry re-raises the last error after exactly n
invocations. -/
theorem C3_retry_transient_backoff {α : Type} (n initialDelay : Nat)
    (outcomes : Nat → Except JsErr α) (env : Env) :
    (∀ (k : Nat) (v : α), 1 ≤ n → k < n →
      (∀ j, j < k → ∃ e, outcomes j = .error e ∧ nonRetryableErr e = false) →
      outcomes k = .ok v →
      ∃ evs,
        runM (withRetry (mkOp outcomes) n initialDelay) env = (.ok v, (0, evs)) ∧
        opCount evs = k + 1 ∧
        waitsOf evs = (List.range k).map (fun j => initialDelay * 2 ^ j)) ∧
    (∀ (e : Nat → JsErr), 1 ≤ n →
      (∀ j, j < n → outcomes j = .error (e j) ∧ nonRetryableErr (e j) = false) →
      ∃ evs,
        runM (withRetry (mkOp outcomes) n initialDelay) env =
          (.error (e (n - 1)), (0, evs)) ∧
        opCount evs = n ∧
        waitsOf evs = (List.range (n - 1)).map (fun j => initialDelay * 2 ^ j)) := by
  constructor
  · intro k v _ hk hfail hok
    obtain ⟨evs', hrun, hcnt, hwaits⟩ :=
      withRetryGo_success outcomes n initialDelay v env k n 0 0 []
        (by omega) hk (by simpa [opCount] using hfail) (by simpa [opCount] using hok)
    refine ⟨evs', ?_, hcnt, by simpa using hwaits⟩
    rw [runM, withRetry, hrun]
    simp
  · intro e h1 hfail
    obtain ⟨evs', hrun, hcnt, hwaits⟩ :=
      withRetryGo_exhaust outcomes n initialDelay e env n 0 0 []
        (by omega) h1 (by simpa [opCount] using hfail)
    refine ⟨evs', ?_, hcnt, by simpa using hwaits⟩
    rw [runM, withRetry, hrun]
    simp [opCount]

/-- Claim C3 witness: maxRetries 3, two transient failures then success —
the value 42 is returned, the operation ran exactly 3 times, and the waits
were 1000ms and 2000ms. -/
theorem C3_witness :
    ∃ evs,
      runM (withRetry (mkOp (fun i =>
          if i < 2 then (.error (.plain "transient") : Except JsErr Nat) else .ok 42))
        3 1000)
        { geminiKey := true, http := fun _ => .hang, ai := fun _ => .reply none } =
        (.ok 42, (0, evs)) ∧
      opCount evs = 3 ∧
      waitsOf evs = [1000, 2000] := by
  obtain ⟨evs, hrun, hcnt, hwaits⟩ :=
    (C3_retry_transient_backoff 3 1000
      (fun i => if i < 2 then (.error (.plain "transient") : Except JsErr Nat) else .ok 42)
      { geminiKey := true, http := fun _ => .hang, ai := fun _ => .reply none }).1
      2 42 (by omega) (by omega)
      (fun j hj => ⟨.plain "transient", by simp [hj], rfl⟩)
      (by rfl)
  exact ⟨evs, hrun, by omega, by rw [hwaits]; rfl⟩

/-! ## Claim C8: the ERROR sentinel and short transcripts -/

/-- Spec-side: a string of whitespace only. -/
def whiteStr (w : String) : Prop := ∀ c ∈ w.data, jsWhite c = true

/-- Spec-side: c is t written in some letter case (character-wise
upper-casing yields t). -/
def caseVariant (c t : String) : Prop := c.data.map Char.toUpper = t.data

/-- Spec-side: the response equals the sentinel "ERROR" in any letter case
with any surrounding whitespace. -/
def sentinelVariant (s : String) : Prop :=
  ∃ w1 c w2, whiteStr w1 ∧ whiteStr w2 ∧ caseVariant c "ERROR" ∧ s = w1 ++ c ++ w2

theorem white_toUpper_fixed {c : Char} (h : jsWhite c = true) : c.toUpper = c := by
  simp only [jsWhite, Bool.or_eq_true, beq_iff_eq] at h
  rcases h with ((((((((rfl | rfl) | rfl) | rfl) | rfl) | rfl) | rfl) | rfl) | rfl) | rfl <;>
    decide

theorem not_white_of_toUpper {c u : Char} (h : c.toUpper = u) (hu : jsWhite u = false) :
    jsWhite c = false := by
  cases hw : jsWhite c
  · rfl
  · have hfix : c.toUpper = c := white_toUpper_fixed hw
    rw [hfix] at h
    subst h
    rw [hw] at hu
    cases hu

theorem jsTrimL_padded (w1 m w2 : List Char) (c1 cN : Char)
    (hw1 : ∀ c ∈ w1, jsWhite c = true) (hw2 : ∀ c ∈ w2, jsWhite c = true)
    (hhead : m.head? = some c1) (hc1 : jsWhite c1 = false)
    (hlast : m.getLast? = some cN) (hcN : jsWhite cN = false) :
    jsTrimL (w1 ++ m ++ w2) = m := by
  obtain ⟨m', rfl⟩ : ∃ m', m = c1 :: m' := by
    cases m with
    | nil => simp at hhead
    | cons a as => exact ⟨as, by injection hhead with h; rw [h]⟩
  have d1 : (w1 ++ (c1 :: m') ++ w2).dropWhile jsWhite = (c1 :: m') ++ w2 := by
    rw [List.append_assoc, dropWhile_all_append _ hw1]
    exact List.dropWhile_cons_of_neg (by simp [hc1])
  rw [jsTrimL, d1]
  have hrev : ((c1 :: m') ++ w2).reverse = w2.reverse ++ (c1 :: m').reverse := by
    rw [List.reverse_append]
  rw [hrev]
  have hw2' : ∀ c ∈ w2.reverse, jsWhite c = true := by
    intro c hc
    exact hw2 c (List.mem_reverse.mp hc)
  rw [dropWhile_all_append _ hw2']
  have hlastrev : (c1 :: m').reverse.head? = some cN := by
    rw [List.head?_reverse]
    exact hlast
  obtain ⟨rest, hres⟩ : ∃ rest, (c1 :: m').reverse = cN :: rest := by
    cases hx : (c1 :: m').reverse with
    | nil => rw [hx] at hlastrev; simp at hlastrev
    | cons a as =>
        rw [hx] at hlastrev
        injection hlastrev with h
        exact ⟨as, by rw [h]⟩
  rw [hres, List.dropWhile_cons_of_neg (by simp [hcN]), ← hres, List.reverse_reverse]

theorem sentinel_trim {s : String} (h : sentinelVariant s) :
    jsToUpper (jsTrim s) = "ERROR" := by
  obtain ⟨w1, c, w2, hw1, hw2, hcv, rfl⟩ := h
  have hdata : (w1 ++ c ++ w2).data = w1.data ++ c.data ++ w2.data := by
    rw [data_append, data_append]
  have hhead : ∃ c1, c.data.head? = some c1 ∧ c1.toUpper = 'E' := by
    have h1 : (c.data.map Char.toUpper).head? = some 'E' := by rw [hcv]; rfl
    rw [List.head?_map] at h1
    cases hx : c.data.head? with
    | none => rw [hx] at h1; simp at h1
    | some a =>
        rw [hx] at h1
        simp at h1
        exact ⟨a, rfl, h1⟩
  have hlast : ∃ cN, c.data.getLast? = some cN ∧ cN.toUpper = 'R' := by
    have h1 : (c.data.map Char.toUpper).getLast? = some 'R' := by rw [hcv]; rfl
    rw [List.getLast?_map] at h1
    cases hx : c.data.getLast? with
    | none => rw [hx] at h1; simp at h1
    | some a =>
        rw [hx] at h1
        simp at h1
        exact ⟨a, rfl, h1⟩
  obtain ⟨c1, hh, hup1⟩ := hhead
  obtain ⟨cN, hl, hupN⟩ := hlast
  have htrim : jsTrim (w1 ++ c ++ w2) = c := by
    have : jsTrimL (w1 ++ c ++ w2).data = c.data := by
      rw [hdata]
      exact jsTrimL_padded w1.data c.data w2.data c1 cN hw1 hw2 hh
        (not_white_of_toUpper hup1 (by decide)) hl
        (not_white_of_toUpper hupN (by decide))
    show String.mk (jsTrimL (w1 ++ c ++ w2).data) = c
    rw [this]
  rw [htrim]
  show String.mk (c.data.map Char.toUpper) = "ERROR"
  rw [hcv]

theorem string_length_data (s : String) : s.length = s.data.length := rfl

/-- Claim C8: with the AI key present, (a) a backend response that is the
sentinel "ERROR" in any letter case with any surrounding whitespace makes
page-text retrieval return null (no exception, no further structuring
call); (b) a transcript response shorter than 100 characters makes
transcript retrieval return null even without the sentinel. -/
theorem C8_sentinel_and_short_transcript (env : Env) (url s t : String)
    (idx : Nat) (evs : List Ev) (hkey : env.geminiKey = true) :
    (env.ai idx = .reply (some s) → sentinelVariant s →
      getTextContentFromUrlWithAI url none env (idx, evs) =
        (.ok none, (idx + 1, evs ++ [Ev.ai (.pageTextSearch url)]))) ∧
    (env.ai idx = .reply (some t) → t.length < 100 →
      getTranscriptFromYoutubeUrl url env (idx, evs) =
        (.ok none, (idx + 1, evs ++ [Ev.ai (.transcriptSearch url)]))) := by
  constructor
  · intro hai hsent
    have herr : (jsToUpper (jsTrim s) == "ERROR") = true := by
      rw [sentinel_trim hsent]
      rfl
    simp only [getTextContentFromUrlWithAI, withRetry, withRetryGo, catchM, bind, pure,
      getAI, aiGenerate, logEv, nextOutcome, hkey, if_true, mkOp]
    simp only [bind_apply, pure_apply, hai, herr]
    simp
  · intro hai hshort
    have hlen : (jsTrim t).length < 100 :=
      Nat.lt_of_le_of_lt (jsTrim_length_le t) hshort
    simp only [getTranscriptFromYoutubeUrl, withRetry, withRetryGo, catchM, bind, pure,
      getAI, aiGenerate, logEv, nextOutcome, hkey, if_true, mkOp]
    simp only [bind_apply, pure_apply, hai]
    simp [hlen]

/-- Claim C8 witness: the backend answers "  ErRoR " (cased, padded) for a
page-text call and a 9-character string for a transcript call — both
retrievals return null. -/
theorem C8_witness :
    getTextContentFromUrlWithAI "https://example.com" none
        { geminiKey := true, http := fun _ => .hang,
          ai := fun _ => .reply (some "  ErRoR ") } (0, []) =
      (.ok none, (1, [Ev.ai (.pageTextSearch "https://example.com")])) ∧
    getTranscriptFromYoutubeUrl "https://youtu.be/dQw4w9WgXcQ"
        { geminiKey := true, http := fun _ => .hang,
          ai := fun _ => .reply (some "too short") } (0, []) =
      (.ok none, (1, [Ev.ai (.transcriptSearch "https://youtu.be/dQw4w9WgXcQ")])) := by
  constructor
  · exact (C8_sentinel_and_short_transcript _ "https://example.com" "  ErRoR " "" 0 []
      rfl).1 rfl ⟨"  ", "ErRoR", " ", by unfold whiteStr; decide,
        by unfold whiteStr; decide, by unfold caseVariant; decide, by decide⟩
  · exact (C8_sentinel_and_short_transcript _ "https://youtu.be/dQw4w9WgXcQ" "" "too short"
      0 [] rfl).2 rfl (by decide)

/-! ## Claim C7: missing YouTube transcript -/

/-- Claim C7, counterexample: with a backend answering the sentinel, the
YouTube orchestrator rejects with a plain Error (JsErr.plain) carrying the
transcript-failure message — not with a RecipeExtractionError of code
NO_RECIPE_FOUND, which its catch clause converts at the boundary — so the
claim as stated is false (the raised error is not an ExtractionError). -/
theorem C7_counterexample :
    runM (generateRecipeFromYoutubeUrl "https://youtu.be/dQw4w9WgXcQ")
      { geminiKey := true, http := fun _ => .hang,
        ai := fun _ => .reply (some "ERROR") } =
      (.error (.plain "Failed to retrieve transcript from YouTube video. The video may not have captions or may not contain a recipe."),
        (1, [Ev.ai (.transcriptSearch "https://youtu.be/dQw4w9WgXcQ")])) := rfl

/-- Claim C7 (amended): whenever transcript retrieval yields null, the
YouTube orchestrator raises a plain Error whose message is the internal
NO_RECIPE_FOUND ExtractionError message (the orchestrator boundary converts
the classified error to a plain one), and performs no further extraction
steps: the final state is exactly the transcript-retrieval state — no
text-structuring call and no image attachment happen. -/
theorem C7_transcript_null_plain_error (env : Env) (url : String) (s1 : St)
    (h : runM (getTranscriptFromYoutubeUrl url) env = (.ok none, s1)) :
    runM (generateRecipeFromYoutubeUrl url) env =
      (.error (.plain "Failed to retrieve transcript from YouTube video. The video may not have captions or may not contain a recipe."),
        s1) := by
  simp only [runM] at h
  simp only [runM, generateRecipeFromYoutubeUrl, catchM, bind_apply, h, throwM]

/-- Claim C7 witness: a backend whose transcript response is absent — the
orchestrator rejects with the plain transcript-failure error and the log
holds only the transcript call. -/
theorem C7_witness :
    runM (generateRecipeFromYoutubeUrl "https://www.youtube.com/watch?v=dQw4w9WgXcQ")
      { geminiKey := true, http := fun _ => .hang, ai := fun _ => .reply none } =
      (.error (.plain "Failed to retrieve transcript from YouTube video. The video may not have captions or may not contain a recipe."),
        (1, [Ev.ai (.transcriptSearch "https://www.youtube.com/watch?v=dQw4w9WgXcQ")])) :=
  C7_transcript_null_plain_error _ _ _ rfl

/-! ## Claim C5: strict validation enumerates every failing field

Spec-side (from §3 of the specification): direct per-field violation
predicates, independent of the Zod issue machinery. -/

/-- Spec-side: the title violates the schema (empty or over 200 chars). -/
def titleViolated (r : SanitizedRecipe) : Bool :=
  r.title.length < 1 || r.title.length > 200

/-- Spec-side: the description violates the schema (empty). -/
def descriptionViolated (r : SanitizedRecipe) : Bool :=
  r.description.length < 1

/-- Spec-side: the servings count violates the schema (not positive). -/
def servingsViolated (r : SanitizedRecipe) : Bool :=
  decide (r.servings ≤ 0)

/-- Spec-side: the ingredients violate the schema (0 entries, over 100
entries, or an empty name). -/
def ingredientsViolated (r : SanitizedRecipe) : Bool :=
  r.ingredients.length < 1 || r.ingredients.length > 100 ||
    r.ingredients.any (fun ing => ing.name.length < 1)

/-- Spec-side: the instructions violate the schema (0 steps, over 50
steps, or an empty step). -/
def instructionsViolated (r : SanitizedRecipe) : Bool :=
  r.instructions.length < 1 || r.instructions.length > 50 ||
    r.instructions.any (fun step => step.length < 1)

/-- Spec-side: an imageUrls entry is not a parseable URL string. -/
def imageUrlsViolated (r : SanitizedRecipe) : Bool :=
  r.imageUrls.any (fun v =>
    match v with
    | .vStr s => !urlCanParse s
    | _ => true)

/-- Spec-side: the optional sourceUrl is present but not a parseable URL
string. -/
def sourceUrlViolated (r : SanitizedRecipe) : Bool :=
  match r.sourceUrl with
  | none => false
  | some (.vStr s) => !urlCanParse s
  | some _ => true

/-- Spec-side: the names of the failing fields, in schema order. -/
def violatedFields (r : SanitizedRecipe) : List String :=
  (if titleViolated r then ["title"] else []) ++
  (if descriptionViolated r then ["description"] else []) ++
  (if servingsViolated r then ["servings"] else []) ++
  (if ingredientsViolated r then ["ingredients"] else []) ++
  (if instructionsViolated r then ["instructions"] else []) ++
  (if imageUrlsViolated r then ["imageUrls"] else []) ++
  (if sourceUrlViolated r then ["sourceUrl"] else [])

/-- Spec-side: the draft conforms to the RecipeDraft schema of §3. -/
def conformsToSchema (r : SanitizedRecipe) : Bool :=
  !(titleViolated r || descriptionViolated r || servingsViolated r ||
    ingredientsViolated r || instructionsViolated r || imageUrlsViolated r ||
    sourceUrlViolated r)

theorem enumIssues_nil_iff {α : Type} (f : Nat → α → List ZodIssue) (q : α → Bool)
    (hf : ∀ i x, f i x = [] ↔ q x = false) :
    ∀ i l, (enumIssues f i l = [] ↔ l.any q = false) := by
  intro i l
  induction l generalizing i with
  | nil => simp [enumIssues]
  | cons x xs ih =>
      simp only [enumIssues, List.append_eq_nil, List.any_cons, Bool.or_eq_false_iff]
      constructor
      · rintro ⟨h1, h2⟩
        exact ⟨(hf i x).mp h1, ((ih (i + 1)).mp h2)⟩
      · rintro ⟨h1, h2⟩
        exact ⟨(hf i x).mpr h1, (ih (i + 1)).mpr h2⟩

theorem enumIssues_mem_of_any {α : Type} (f : Nat → α → List ZodIssue) (q : α → Bool)
    (fieldName : String)
    (hf : ∀ i x, q x = true → ∃ iss ∈ f i x, iss.path.head? = some fieldName) :
    ∀ i l, l.any q = true →
      ∃ iss ∈ enumIssues f i l, iss.path.head? = some fieldName := by
  intro i l
  induction l generalizing i with
  | nil => intro h; simp at h
  | cons x xs ih =>
      intro h
      simp only [List.any_cons, Bool.or_eq_true] at h
      rcases h with h | h
      · obtain ⟨iss, hin, hh⟩ := hf i x h
        exact ⟨iss, by simp [enumIssues, hin], hh⟩
      · obtain ⟨iss, hin, hh⟩ := ih (i + 1) h
        exact ⟨iss, by simp [enumIssues, hin], hh⟩

theorem titleIssues_nil_iff (r : SanitizedRecipe) :
    titleIssues r = [] ↔ titleViolated r = false := by
  simp only [titleIssues, runZChecks, titleViolated, List.append_eq_nil]
  split_ifs <;> simp_all

theorem descriptionIssues_nil_iff (r : SanitizedRecipe) :
    descriptionIssues r = [] ↔ descriptionViolated r = false := by
  simp only [descriptionIssues, runZChecks, descriptionViolated, List.append_eq_nil]
  split_ifs <;> simp_all

theorem servingsIssues_nil_iff (r : SanitizedRecipe) :
    servingsIssues r = [] ↔ servingsViolated r = false := by
  simp only [servingsIssues, servingsViolated]
  split_ifs with h <;> simp <;> omega

theorem ingElem_nil_iff (i : Nat) (ing : Ingredient) :
    runZChecks ["ingredients", toString i, "name"] ing.name
      [.minLen 1 "Ingredient name is required"] = [] ↔
    (ing.name.length < 1) = false := by
  simp only [runZChecks, List.append_eq_nil]
  split_ifs <;> simp_all

theorem ingredientsIssues_nil_iff (r : SanitizedRecipe) :
    ingredientsIssues r = [] ↔ ingredientsViolated r = false := by
  simp only [ingredientsIssues, ingredientsViolated, List.append_eq_nil,
    Bool.or_eq_false_iff]
  rw [enumIssues_nil_iff _ (fun ing => decide (ing.name.length < 1))
    (by intro i x; rw [ingElem_nil_iff]; simp)]
  constructor
  · rintro ⟨⟨h1, h2⟩, h3⟩
    refine ⟨⟨?_, ?_⟩, ?_⟩
    · by_cases hx : r.ingredients.length < 1
      · rw [if_pos hx] at h1; cases h1
      · exact decide_eq_false hx
    · by_cases hx : r.ingredients.length > 100
      · rw [if_pos hx] at h2; cases h2
      · exact decide_eq_false hx
    · simpa using h3
  · rintro ⟨⟨h1, h2⟩, h3⟩
    exact ⟨⟨by rw [if_neg (of_decide_eq_false h1)],
      by rw [if_neg (of_decide_eq_false h2)]⟩, by simpa using h3⟩

theorem instrElem_nil_iff (i : Nat) (step : String) :
    runZChecks ["instructions", toString i] step
      [.minLen 1 "Instruction step cannot be empty"] = [] ↔
    (step.length < 1) = false := by
  simp only [runZChecks, List.append_eq_nil]
  split_ifs <;> simp_all

theorem instructionsIssues_nil_iff (r : SanitizedRecipe) :
    instructionsIssues r = [] ↔ instructionsViolated r = false := by
  simp only [instructionsIssues, instructionsViolated, List.append_eq_nil,
    Bool.or_eq_false_iff]
  rw [enumIssues_nil_iff _ (fun step => decide (step.length < 1))
    (by intro i x; rw [instrElem_nil_iff]; simp)]
  constructor
  · rintro ⟨⟨h1, h2⟩, h3⟩
    refine ⟨⟨?_, ?_⟩, ?_⟩
    · by_cases hx : r.instructions.length < 1
      · rw [if_pos hx] at h1; cases h1
      · exact decide_eq_false hx
    · by_cases hx : r.instructions.length > 50
      · rw [if_pos hx] at h2; cases h2
      · exact decide_eq_false hx
    · simpa using h3
  · rintro ⟨⟨h1, h2⟩, h3⟩
    exact ⟨⟨by rw [if_neg (of_decide_eq_false h1)],
      by rw [if_neg (of_decide_eq_false h2)]⟩, by simpa using h3⟩

theorem imgElem_nil_iff (i : Nat) (v : Val) :
    zodStringVal ["imageUrls", toString i] v [.urlCheck] = [] ↔
    (match v with | .vStr s => !urlCanParse s | _ => true) = false := by
  cases v with
  | vStr s =>
      simp only [zodStringVal, runZChecks, List.append_eq_nil]
      split_ifs <;> simp_all
  | vNum n => simp [zodStringVal]
  | vBool b => simp [zodStringVal]
  | vNull => simp [zodStringVal]
  | vUndefined => simp [zodStringVal]
  | vArr xs => simp [zodStringVal]
  | vObj fs => simp [zodStringVal]

theorem imageUrlsIssues_nil_iff (r : SanitizedRecipe) :
    imageUrlsIssues r = [] ↔ imageUrlsViolated r = false := by
  simp only [imageUrlsIssues, imageUrlsViolated]
  exact enumIssues_nil_iff _ _ (by intro i x; rw [imgElem_nil_iff]) 0 r.imageUrls

theorem sourceUrlIssues_nil_iff (r : SanitizedRecipe) :
    sourceUrlIssues r = [] ↔ sourceUrlViolated r = false := by
  simp only [sourceUrlIssues, sourceUrlViolated]
  cases hs : r.sourceUrl with
  | none => simp
  | some v =>
      cases v with
      | vStr s =>
          simp only [zodStringVal, runZChecks, List.append_eq_nil]
          split_ifs <;> simp_all
      | vNum n => simp [zodStringVal]
      | vBool b => simp [zodStringVal]
      | vNull => simp [zodStringVal]
      | vUndefined => simp [zodStringVal]
      | vArr xs => simp [zodStringVal]
      | vObj fs => simp [zodStringVal]

theorem mem_if_singleton {x a : String} {c : Prop} [Decidable c] :
    x ∈ (if c then [a] else []) ↔ c ∧ x = a := by
  split_ifs with h <;> simp [h]

theorem jsStartsWith_of_data (s f : String) (h : ∃ t, s.data = f.data ++ t) :
    jsStartsWith s f = true := by
  obtain ⟨t, ht⟩ := h
  show startsWithL s.data f.data = true
  rw [ht]
  exact startsWithL_append_self _ _

theorem renderIssue_startsWith (iss : ZodIssue) (f : String)
    (h : iss.path.head? = some f) : jsStartsWith (renderIssue iss) f = true := by
  obtain ⟨rest, hr⟩ : ∃ rest, iss.path = f :: rest := by
    cases hp : iss.path with
    | nil => rw [hp] at h; cases h
    | cons a as =>
        rw [hp] at h
        refine ⟨as, ?_⟩
        injection h with h1
        rw [h1]
  apply jsStartsWith_of_data
  rw [renderIssue, hr]
  cases rest with
  | nil => exact ⟨(": " ++ iss.message).data, by simp [joinSep, data_append]⟩
  | cons b bs =>
      exact ⟨("." ++ joinSep "." (b :: bs) ++ ": " ++ iss.message).data,
        by simp [joinSep, data_append]⟩

theorem titleIssues_mem (r : SanitizedRecipe) (h : titleViolated r = true) :
    ∃ iss ∈ titleIssues r, iss.path.head? = some "title" := by
  simp only [titleViolated, Bool.or_eq_true, decide_eq_true_eq] at h
  rcases h with h | h
  · exact ⟨⟨["title"], "Recipe title is required"⟩,
      by simp [titleIssues, runZChecks, h], rfl⟩
  · refine ⟨⟨["title"], "Title too long"⟩, ?_, rfl⟩
    have h1 : ¬ r.title.length < 1 := by omega
    simp [titleIssues, runZChecks, h, h1]

theorem descriptionIssues_mem (r : SanitizedRecipe) (h : descriptionViolated r = true) :
    ∃ iss ∈ descriptionIssues r, iss.path.head? = some "description" := by
  simp only [descriptionViolated, decide_eq_true_eq] at h
  exact ⟨⟨["description"], "Recipe description is required"⟩,
    by simp [descriptionIssues, runZChecks, h], rfl⟩

theorem servingsIssues_mem (r : SanitizedRecipe) (h : servingsViolated r = true) :
    ∃ iss ∈ servingsIssues r, iss.path.head? = some "servings" := by
  simp only [servingsViolated, decide_eq_true_eq] at h
  refine ⟨⟨["servings"], "Servings must be a positive number"⟩, ?_, rfl⟩
  have h1 : ¬ r.servings > 0 := by omega
  simp [servingsIssues, h1]

theorem ingredientsIssues_mem (r : SanitizedRecipe) (h : ingredientsViolated r = true) :
    ∃ iss ∈ ingredientsIssues r, iss.path.head? = some "ingredients" := by
  simp only [ingredientsViolated, Bool.or_eq_true, decide_eq_true_eq] at h
  rcases h with (h | h) | h
  · exact ⟨⟨["ingredients"], "At least one ingredient is required"⟩,
      by simp [ingredientsIssues, h], rfl⟩
  · exact ⟨⟨["ingredients"], "Too many ingredients"⟩,
      by simp [ingredientsIssues, h], rfl⟩
  · obtain ⟨iss, hin, hh⟩ :=
      enumIssues_mem_of_any
        (fun i ing => runZChecks ["ingredients", toString i, "name"] ing.name
          [.minLen 1 "Ingredient name is required"])
        (fun ing => decide (ing.name.length < 1)) "ingredients"
        (by
          intro i x hx
          simp only [decide_eq_true_eq] at hx
          exact ⟨⟨["ingredients", toString i, "name"], "Ingredient name is required"⟩,
            by simp [runZChecks, hx], rfl⟩)
        0 r.ingredients (by simpa using h)
    exact ⟨iss, by simp [ingredientsIssues, hin], hh⟩

theorem instructionsIssues_mem (r : SanitizedRecipe) (h : instructionsViolated r = true) :
    ∃ iss ∈ instructionsIssues r, iss.path.head? = some "instructions" := by
  simp only [instructionsViolated, Bool.or_eq_true, decide_eq_true_eq] at h
  rcases h with (h | h) | h
  · exact ⟨⟨["instructions"], "At least one instruction step is required"⟩,
      by simp [instructionsIssues, h], rfl⟩
  · exact ⟨⟨["instructions"], "Too many instruction steps"⟩,
      by simp [instructionsIssues, h], rfl⟩
  · obtain ⟨iss, hin, hh⟩ :=
      enumIssues_mem_of_any
        (fun i step => runZChecks ["instructions", toString i] step
          [.minLen 1 "Instruction step cannot be empty"])
        (fun step => decide (step.length < 1)) "instructions"
        (by
          intro i x hx
          simp only [decide_eq_true_eq] at hx
          exact ⟨⟨["instructions", toString i], "Instruction step cannot be empty"⟩,
            by simp [runZChecks, hx], rfl⟩)
        0 r.instructions (by simpa using h)
    exact ⟨iss, by simp [instructionsIssues, hin], hh⟩

theorem imageUrlsIssues_mem (r : SanitizedRecipe) (h : imageUrlsViolated r = true) :
    ∃ iss ∈ imageUrlsIssues r, iss.path.head? = some "imageUrls" := by
  obtain ⟨iss, hin, hh⟩ :=
    enumIssues_mem_of_any
      (fun i v => zodStringVal ["imageUrls", toString i] v [.urlCheck])
      (fun v => match v with | .vStr s => !urlCanParse s | _ => true) "imageUrls"
      (by
        intro i v hv
        cases v with
        | vStr s =>
            simp only at hv
            refine ⟨⟨["imageUrls", toString i], "Invalid url"⟩, ?_, rfl⟩
            simp only [zodStringVal, runZChecks]
            simp only [Bool.not_eq_true'] at hv
            simp [hv]
        | vNum n => exact ⟨⟨["imageUrls", toString i], "Expected string, received number"⟩, by simp [zodStringVal, zodTypeName], rfl⟩
        | vBool b => exact ⟨⟨["imageUrls", toString i], "Expected string, received boolean"⟩, by simp [zodStringVal, zodTypeName], rfl⟩
        | vNull => exact ⟨⟨["imageUrls", toString i], "Expected string, received null"⟩, by simp [zodStringVal, zodTypeName], rfl⟩
        | vUndefined => exact ⟨⟨["imageUrls", toString i], "Required"⟩, by simp [zodStringVal], rfl⟩
        | vArr xs => exact ⟨⟨["imageUrls", toString i], "Expected string, received array"⟩, by simp [zodStringVal, zodTypeName], rfl⟩
        | vObj fs => exact ⟨⟨["imageUrls", toString i], "Expected string, received object"⟩, by simp [zodStringVal, zodTypeName], rfl⟩)
      0 r.imageUrls (by simpa [imageUrlsViolated] using h)
  exact ⟨iss, by simpa [imageUrlsIssues] using hin, hh⟩

theorem sourceUrlIssues_mem (r : SanitizedRecipe) (h : sourceUrlViolated r = true) :
    ∃ iss ∈ sourceUrlIssues r, iss.path.head? = some "sourceUrl" := by
  unfold sourceUrlViolated at h
  unfold sourceUrlIssues
  cases hs : r.sourceUrl with
  | none => rw [hs] at h; cases h
  | some v =>
      rw [hs] at h
      cases v with
      | vStr s =>
          simp only [Bool.not_eq_true'] at h
          refine ⟨⟨["sourceUrl"], "Invalid url"⟩, ?_, rfl⟩
          simp [zodStringVal, runZChecks, h]
      | vNum n => exact ⟨⟨["sourceUrl"], "Expected string, received number"⟩, by simp [zodStringVal, zodTypeName], rfl⟩
      | vBool b => exact ⟨⟨["sourceUrl"], "Expected string, received boolean"⟩, by simp [zodStringVal, zodTypeName], rfl⟩
      | vNull => exact ⟨⟨["sourceUrl"], "Expected string, received null"⟩, by simp [zodStringVal, zodTypeName], rfl⟩
      | vUndefined => exact ⟨⟨["sourceUrl"], "Required"⟩, by simp [zodStringVal], rfl⟩
      | vArr xs => exact ⟨⟨["sourceUrl"], "Expected string, received array"⟩, by simp [zodStringVal, zodTypeName], rfl⟩
      | vObj fs => exact ⟨⟨["sourceUrl"], "Expected string, received object"⟩, by simp [zodStringVal, zodTypeName], rfl⟩

theorem zodIssues_nil_iff (r : SanitizedRecipe) :
    zodIssues r = [] ↔ conformsToSchema r = true := by
  simp only [zodIssues, List.append_eq_nil]
  rw [titleIssues_nil_iff, descriptionIssues_nil_iff, servingsIssues_nil_iff,
    ingredientsIssues_nil_iff, instructionsIssues_nil_iff, imageUrlsIssues_nil_iff,
    sourceUrlIssues_nil_iff]
  simp only [conformsToSchema, Bool.not_eq_true', Bool.or_eq_false_iff]

theorem validate_ok_iff (r : SanitizedRecipe) :
    validateRecipeData r = .ok r ↔ zodIssues r = [] := by
  unfold validateRecipeData
  cases h : zodIssues r with
  | nil => simp
  | cons i rest => simp

theorem validate_error_of (r : SanitizedRecipe) (h : zodIssues r ≠ []) :
    validateRecipeData r = .error
      { message := "Recipe validation failed: " ++
          joinSep ", " ((zodIssues r).map renderIssue)
        code := .VALIDATION_ERROR } := by
  unfold validateRecipeData
  cases hz : zodIssues r with
  | nil => exact absurd hz h
  | cons i rest => rfl

theorem violated_issue_mem (r : SanitizedRecipe) (f : String)
    (hf : f ∈ violatedFields r) :
    ∃ iss ∈ zodIssues r, iss.path.head? = some f := by
  simp only [violatedFields, List.mem_append, mem_if_singleton] at hf
  rcases hf with ((((((⟨hv, rfl⟩ | ⟨hv, rfl⟩) | ⟨hv, rfl⟩) | ⟨hv, rfl⟩) | ⟨hv, rfl⟩) |
    ⟨hv, rfl⟩) | ⟨hv, rfl⟩)
  · obtain ⟨iss, hin, hh⟩ := titleIssues_mem r hv
    exact ⟨iss, by simp [zodIssues, hin], hh⟩
  · obtain ⟨iss, hin, hh⟩ := descriptionIssues_mem r hv
    exact ⟨iss, by simp [zodIssues, hin], hh⟩
  · obtain ⟨iss, hin, hh⟩ := servingsIssues_mem r hv
    exact ⟨iss, by simp [zodIssues, hin], hh⟩
  · obtain ⟨iss, hin, hh⟩ := ingredientsIssues_mem r hv
    exact ⟨iss, by simp [zodIssues, hin], hh⟩
  · obtain ⟨iss, hin, hh⟩ := instructionsIssues_mem r hv
    exact ⟨iss, by simp [zodIssues, hin], hh⟩
  · obtain ⟨iss, hin, hh⟩ := imageUrlsIssues_mem r hv
    exact ⟨iss, by simp [zodIssues, hin], hh⟩
  · obtain ⟨iss, hin, hh⟩ := sourceUrlIssues_mem r hv
    exact ⟨iss, by simp [zodIssues, hin], hh⟩

/-- Claim C5: validateRecipeData returns a schema-conformant draft
unchanged and raises on any violation a RecipeExtractionError with code
VALIDATION_ERROR whose message lists "field: reason" pairs joined by
commas, one group per failing field — every failing field appears, not
just the first; in particular a draft with 0 ingredients and one with 101
ingredients are both rejected with a message containing the substring
"ingredient". -/
theorem C5_validation_enumerates_failures (r : SanitizedRecipe) :
    (validateRecipeData r = .ok r ↔ conformsToSchema r = true) ∧
    (conformsToSchema r = false →
      ∃ e, validateRecipeData r = .error e ∧ e.code = .VALIDATION_ERROR ∧
        ∃ pairs, pairs ≠ [] ∧
          e.message = "Recipe validation failed: " ++ joinSep ", " pairs ∧
          ∀ f ∈ violatedFields r, ∃ pr ∈ pairs, jsStartsWith pr f = true) ∧
    (r.ingredients = [] →
      ∃ e, validateRecipeData r = .error e ∧ e.code = .VALIDATION_ERROR ∧
        containsSub e.message "ingredient" = true) ∧
    (r.ingredients.length = 101 →
      ∃ e, validateRecipeData r = .error e ∧ e.code = .VALIDATION_ERROR ∧
        containsSub e.message "ingredient" = true) := by
  have main : conformsToSchema r = false →
      ∃ e, validateRecipeData r = .error e ∧ e.code = .VALIDATION_ERROR ∧
        ∃ pairs, pairs ≠ [] ∧
          e.message = "Recipe validation failed: " ++ joinSep ", " pairs ∧
          ∀ f ∈ violatedFields r, ∃ pr ∈ pairs, jsStartsWith pr f = true := by
    intro h
    have hz : zodIssues r ≠ [] := by
      intro hnil
      rw [(zodIssues_nil_iff r).mp hnil] at h
      cases h
    refine ⟨_, validate_error_of r hz, rfl, (zodIssues r).map renderIssue,
      by simpa using hz, rfl, ?_⟩
    intro f hf
    obtain ⟨iss, hin, hh⟩ := violated_issue_mem r f hf
    exact ⟨renderIssue iss, List.mem_map_of_mem renderIssue hin,
      renderIssue_startsWith iss f hh⟩
  have ingCase : ingredientsViolated r = true →
      ∃ e, validateRecipeData r = .error e ∧ e.code = .VALIDATION_ERROR ∧
        containsSub e.message "ingredient" = true := by
    intro hv
    have hcf : conformsToSchema r = false := by
      simp [conformsToSchema, hv]
    obtain ⟨e, he, hcode, pairs, _, hmsg, hfields⟩ := main hcf
    refine ⟨e, he, hcode, ?_⟩
    have hmem : "ingredients" ∈ violatedFields r := by
      simp [violatedFields, mem_if_singleton, hv]
    obtain ⟨pr, hpr, hstart⟩ := hfields "ingredients" hmem
    have h1 : containsSubL (joinSep ", " pairs).data pr.data = true :=
      containsSub_joinSep_mem ", " pairs pr hpr
    have h2 : containsSubL e.message.data pr.data = true := by
      rw [hmsg, data_append]
      exact containsSubL_append_right _ h1
    have h3 : startsWithL pr.data "ingredient".data = true :=
      startsWithL_mono "ingredient".data pr.data "ingredients".data hstart (by decide)
    exact containsSubL_mono h2 h3
  refine ⟨(validate_ok_iff r).trans (zodIssues_nil_iff r), main, ?_, ?_⟩
  · intro h0
    exact ingCase (by simp [ingredientsViolated, h0])
  · intro h101
    exact ingCase (by simp [ingredientsViolated, h101])

/-- Claim C5 witness: a concrete empty-ingredient draft is rejected with a
VALIDATION_ERROR mentioning "ingredient", and a concrete conformant draft
passes unchanged. -/
theorem C5_witness :
    (∃ e, validateRecipeData
        { title := "T", description := "D", servings := 4, ingredients := [],
          instructions := ["Go"], imageUrls := [], sourceUrl := none } = .error e ∧
      e.code = .VALIDATION_ERROR ∧ containsSub e.message "ingredient" = true) ∧
    validateRecipeData
        { title := "T", description := "D", servings := 4,
          ingredients := [{ name := "Egg", quantity := "1" }],
          instructions := ["Go"], imageUrls := [], sourceUrl := none } =
      .ok { title := "T", description := "D", servings := 4,
            ingredients := [{ name := "Egg", quantity := "1" }],
            instructions := ["Go"], imageUrls := [], sourceUrl := none } := by
  constructor
  · exact (C5_validation_enumerates_failures _).2.2.1 rfl
  · exact (C5_validation_enumerates_failures _).1.mpr (by decide)

/-! ## Lemma layer: sanitize output shape -/

theorem sanitizeString_trimmed (v : Val) :
    jsTrim (sanitizeString v) = sanitizeString v := by
  cases v with
  | vStr s => exact jsTrim_idem s
  | vNum n => rfl
  | vBool b => rfl
  | vNull => rfl
  | vUndefined => rfl
  | vArr xs => rfl
  | vObj fs => rfl

theorem sanitizeNumber_pos (v : Val) : 0 < sanitizeNumber v 4 := by
  unfold sanitizeNumber
  cases jsParseInt (jsToString v) with
  | none => decide
  | some n =>
      by_cases hn : n > 0
      · simp only [hn, if_true]
      · simp [hn]

theorem sanitizeNumber_roundtrip (m : Int) (hm : 0 < m) (hm21 : m < 10 ^ 21) :
    sanitizeNumber (.vNum m) 4 = m := by
  unfold sanitizeNumber
  have hjs : jsToString (.vNum m) = ⟨natToDec m.toNat⟩ := by
    show (⟨jsIntToString m⟩ : String) = ⟨natToDec m.toNat⟩
    rw [jsIntToString, if_neg (by omega), jsNatToString_small m.toNat (by omega)]
  rw [hjs, jsParseInt_natToDec]
  have hoftn : Int.ofNat m.toNat = m := Int.toNat_of_nonneg (Int.le_of_lt hm)
  rw [hoftn]
  simp [hm]

theorem map_mem_id {α : Type} (l : List α) (f : α → α) (h : ∀ x ∈ l, f x = x) :
    l.map f = l := by
  induction l with
  | nil => rfl
  | cons x xs ih =>
      rw [List.map_cons, h x (by simp), ih (fun y hy => h y (by simp [hy]))]

theorem sanitizeIngredients_elem (v : Val) (i : Ingredient)
    (hi : i ∈ sanitizeIngredients v) :
    jsTrim i.name = i.name ∧ 0 < i.name.length ∧ jsTrim i.quantity = i.quantity := by
  unfold sanitizeIngredients at hi
  cases v with
  | vArr xs =>
      simp only [List.mem_filter, List.mem_map] at hi
      obtain ⟨⟨x, _, rfl⟩, hg⟩ := hi
      refine ⟨sanitizeString_trimmed _, by simpa using hg, sanitizeString_trimmed _⟩
  | vStr s => simp at hi
  | vNum n => simp at hi
  | vBool b => simp at hi
  | vNull => simp at hi
  | vUndefined => simp at hi
  | vObj fs => simp at hi

theorem sanitizeInstructions_elem (v : Val) (s : String)
    (hs : s ∈ sanitizeInstructions v) :
    jsTrim s = s ∧ 0 < s.length := by
  unfold sanitizeInstructions at hs
  cases v with
  | vArr xs =>
      simp only [List.mem_filter, List.mem_map] at hs
      obtain ⟨⟨x, _, rfl⟩, hg⟩ := hs
      exact ⟨sanitizeString_trimmed _, by simpa using hg⟩
  | vStr t => simp at hs
  | vNum n => simp at hs
  | vBool b => simp at hs
  | vNull => simp at hs
  | vUndefined => simp at hs
  | vObj fs => simp at hs

theorem sanitize_ok (d : Val) (hd : isNullish d = false) :
    sanitizeRecipeData d = .ok
      { title := sanitizeString (getProp d "title")
        description := sanitizeString (getProp d "description")
        servings := sanitizeNumber (getProp d "servings") 4
        ingredients := sanitizeIngredients (getProp d "ingredients")
        instructions := sanitizeInstructions (getProp d "instructions")
        imageUrls :=
          match getProp d "imageUrls" with
          | .vArr xs => xs
          | _ => []
        sourceUrl :=
          if jsTruthy (getProp d "sourceUrl") then some (getProp d "sourceUrl")
          else none } := by
  unfold sanitizeRecipeData
  rw [if_neg (by simp [hd])]

/-! ## Claim C6: sanitization -/

theorem filter_map_filter_eq_filterMap {α β : Type} (q : α → Bool) (f : α → β)
    (g : β → Bool) (xs : List α) :
    ((xs.filter q).map f).filter g =
      xs.filterMap (fun x =>
        if q x then (if g (f x) then some (f x) else none) else none) := by
  induction xs with
  | nil => rfl
  | cons x xs ih =>
      by_cases hq : q x
      · by_cases hg : g (f x) <;>
          simp [List.filter_cons, List.filterMap_cons, hq, hg, ih]
      · simp [List.filter_cons, List.filterMap_cons, hq, ih]

theorem map_filter_eq_filterMap {α β : Type} (f : α → β) (g : β → Bool)
    (xs : List α) :
    (xs.map f).filter g =
      xs.filterMap (fun x => if g (f x) then some (f x) else none) := by
  induction xs with
  | nil => rfl
  | cons x xs ih =>
      by_cases hg : g (f x) <;>
        simp [List.filter_cons, List.filterMap_cons, hg, ih]

/-- Claim C6, counterexample: (a) sanitizeRecipeData throws a TypeError on
the input null (property access on null), so "for every input value, the
sanitize stage never fails" is false; (b) a non-empty string entry in the
ingredients array is dropped entirely (only object entries survive), so
"ingredients are the input arrays with entries that are empty after
trimming dropped" is false; (c) an unparseable-as-a-whole servings string
"12abc" yields 12 (the parseInt prefix), neither the input value nor the
default 4. -/
theorem C6_counterexample :
    sanitizeRecipeData .vNull =
      .error (.plain "TypeError: cannot read properties of null or undefined") ∧
    (∃ r, sanitizeRecipeData
        (.vObj [("title", .vStr "T"),
                ("ingredients", .vArr [.vStr "flour"]),
                ("servings", .vStr "12abc")]) = .ok r ∧
      r.ingredients = [] ∧ r.servings = 12) := by
  exact ⟨rfl, _, rfl, rfl, rfl⟩

/-- Claim C6 (amended): for every input value other than null and
undefined, sanitization never fails and returns a draft whose title and
description are the trimmed input strings (empty when not a string), whose
servings is the positive integer parseInt extracts from the stringified
input when there is one and 4 otherwise, whose ingredients are the object
entries of the input array with name/quantity trimmed and entries with an
empty-after-trim name dropped (non-object entries are dropped), whose
instructions are the string entries trimmed with empty-after-trim entries
dropped (non-string entries become empty and are dropped), and whose
ingredient/instruction lists are empty when the input is not an array. -/
theorem C6_sanitize_amended (d : Val) (hd : isNullish d = false) :
    ∃ r, sanitizeRecipeData d = .ok r ∧
      r.title = (match getProp d "title" with | .vStr s => jsTrim s | _ => "") ∧
      r.description =
        (match getProp d "description" with | .vStr s => jsTrim s | _ => "") ∧
      (match jsParseInt (jsToString (getProp d "servings")) with
       | some n => r.servings = if 0 < n then n else 4
       | none => r.servings = 4) ∧
      r.ingredients =
        (match getProp d "ingredients" with
         | .vArr xs => xs.filterMap (fun ing =>
             if jsTruthy ing && typeofObject ing then
               (if 0 < (sanitizeString (getProp ing "name")).length then
                 some { name := sanitizeString (getProp ing "name")
                        quantity := sanitizeString (getProp ing "quantity") }
                else none)
             else none)
         | _ => []) ∧
      r.instructions =
        (match getProp d "instructions" with
         | .vArr xs => xs.filterMap (fun ins =>
             if 0 < (sanitizeString ins).length then some (sanitizeString ins)
             else none)
         | _ => []) ∧
      r.imageUrls = (match getProp d "imageUrls" with | .vArr xs => xs | _ => []) ∧
      r.sourceUrl =
        (if jsTruthy (getProp d "sourceUrl") then some (getProp d "sourceUrl")
         else none) := by
  refine ⟨_, sanitize_ok d hd, ?_, ?_, ?_, ?_, ?_, rfl, rfl⟩
  · cases getProp d "title" <;> rfl
  · cases getProp d "description" <;> rfl
  · show (match jsParseInt (jsToString (getProp d "servings")) with
      | some n => sanitizeNumber (getProp d "servings") 4 = if 0 < n then n else 4
      | none => sanitizeNumber (getProp d "servings") 4 = 4)
    unfold sanitizeNumber
    cases jsParseInt (jsToString (getProp d "servings")) with
    | none => rfl
    | some n =>
        by_cases hn : n > 0
        · simp [hn]
        · simp [hn]
  · show sanitizeIngredients (getProp d "ingredients") = _
    unfold sanitizeIngredients
    cases getProp d "ingredients" with
    | vArr xs =>
        dsimp only
        rw [filter_map_filter_eq_filterMap]
        apply List.filterMap_congr
        intro x _
        by_cases hq : (jsTruthy x && typeofObject x) = true
        · simp only [hq, if_true]
          by_cases hg : 0 < (sanitizeString (getProp x "name")).length
          · simp [hg]
          · simp [hg]
        · simp only [hq]
          rw [if_neg (by simp [hq]), if_neg (by simp [hq])]
    | vStr s => rfl
    | vNum n => rfl
    | vBool b => rfl
    | vNull => rfl
    | vUndefined => rfl
    | vObj fs => rfl
  · show sanitizeInstructions (getProp d "instructions") = _
    unfold sanitizeInstructions
    cases getProp d "instructions" with
    | vArr xs =>
        dsimp only
        rw [map_filter_eq_filterMap]
        apply List.filterMap_congr
        intro x _
        by_cases hg : 0 < (sanitizeString x).length
        · simp [hg]
        · rw [if_neg (by simpa using hg), if_neg hg]
    | vStr s => rfl
    | vNum n => rfl
    | vBool b => rfl
    | vNull => rfl
    | vUndefined => rfl
    | vObj fs => rfl

/-- Claim C6 witness: the amended theorem at a concrete loosely-typed
draft. -/
theorem C6_witness :
    ∃ r, sanitizeRecipeData
        (.vObj [("title", .vStr "  Soup  "), ("servings", .vStr " 6 portions"),
                ("ingredients", .vArr [.vObj [("name", .vStr " Egg "), ("quantity", .vStr "1")],
                                       .vObj [("name", .vStr "   ")]]),
                ("instructions", .vArr [.vStr " Mix ", .vStr "  ", .vNum 3])]) = .ok r ∧
      r.title = "Soup" ∧ r.servings = 6 ∧
      r.ingredients = [{ name := "Egg", quantity := "1" }] ∧
      r.instructions = ["Mix"] := by
  obtain ⟨r, hok, ht, _, hs, hing, hins, _, _⟩ :=
    C6_sanitize_amended
      (.vObj [("title", .vStr "  Soup  "), ("servings", .vStr " 6 portions"),
              ("ingredients", .vArr [.vObj [("name", .vStr " Egg "), ("quantity", .vStr "1")],
                                     .vObj [("name", .vStr "   ")]]),
              ("instructions", .vArr [.vStr " Mix ", .vStr "  ", .vNum 3])])
      rfl
  exact ⟨r, hok, ht.trans (by rfl), hs, hing.trans (by rfl), hins.trans (by rfl)⟩

/-! ## Claim C10: sanitize idempotence -/

/-- A sanitized ingredient rendered back as a loose JS object. -/
def ingredientToVal (i : Ingredient) : Val :=
  .vObj [("name", .vStr i.name), ("quantity", .vStr i.quantity)]

/-- A sanitized draft rendered back as a loose JS object, as it flows into
validation and back into sanitization. -/
def sanitizedToVal (r : SanitizedRecipe) : Val :=
  .vObj [("title", .vStr r.title),
         ("description", .vStr r.description),
         ("servings", .vNum r.servings),
         ("ingredients", .vArr (r.ingredients.map ingredientToVal)),
         ("instructions", .vArr (r.instructions.map Val.vStr)),
         ("imageUrls", .vArr r.imageUrls),
         ("sourceUrl", match r.sourceUrl with | some v => v | none => .vUndefined)]

theorem sanitizeIngredients_roundtrip (l : List Ingredient)
    (h : ∀ i ∈ l, jsTrim i.name = i.name ∧ 0 < i.name.length ∧
          jsTrim i.quantity = i.quantity) :
    sanitizeIngredients (.vArr (l.map ingredientToVal)) = l := by
  unfold sanitizeIngredients
  dsimp only
  have h1 : List.filter (fun ing => jsTruthy ing && typeofObject ing)
      (List.map ingredientToVal l) = List.map ingredientToVal l := by
    apply List.filter_eq_self.mpr
    intro a ha
    obtain ⟨i, _, rfl⟩ := List.mem_map.1 ha
    rfl
  rw [h1, List.map_map]
  have h2 : List.map ((fun ing => ({ name := sanitizeString (getProp ing "name"), quantity := sanitizeString (getProp ing "quantity") } : Ingredient)) ∘ ingredientToVal) l = l := by
    apply map_mem_id
    intro i hi
    obtain ⟨hn, _, hq⟩ := h i hi
    show ({ name := jsTrim i.name, quantity := jsTrim i.quantity } : Ingredient) = i
    rw [hn, hq]
  rw [h2]
  apply List.filter_eq_self.mpr
  intro i hi
  obtain ⟨_, hp, _⟩ := h i hi
  simpa using hp

theorem sanitizeInstructions_roundtrip (l : List String)
    (h : ∀ s ∈ l, jsTrim s = s ∧ 0 < s.length) :
    sanitizeInstructions (.vArr (l.map Val.vStr)) = l := by
  unfold sanitizeInstructions
  dsimp only
  rw [List.map_map]
  have h2 : List.map (sanitizeString ∘ Val.vStr) l = l := by
    apply map_mem_id
    intro s hs
    show jsTrim s = s
    exact (h s hs).1
  rw [h2]
  apply List.filter_eq_self.mpr
  intro s hs
  simpa using (h s hs).2

theorem sanitize_fixedpoint (r : SanitizedRecipe)
    (ht : jsTrim r.title = r.title) (hde : jsTrim r.description = r.description)
    (hsv : 0 < r.servings) (hsv21 : r.servings < 10 ^ 21)
    (hing : ∀ i ∈ r.ingredients, jsTrim i.name = i.name ∧ 0 < i.name.length ∧
        jsTrim i.quantity = i.quantity)
    (hins : ∀ s ∈ r.instructions, jsTrim s = s ∧ 0 < s.length)
    (hsrc : ∀ v, r.sourceUrl = some v → jsTruthy v = true) :
    sanitizeRecipeData (sanitizedToVal r) = .ok r := by
  rw [sanitize_ok (sanitizedToVal r) rfl]
  refine congrArg Except.ok ?_
  cases r with
  | mk title description servings ingredients instructions imageUrls sourceUrl =>
      simp only [SanitizedRecipe.mk.injEq]
      refine ⟨?_, ?_, ?_, ?_, ?_, ?_, ?_⟩
      · exact ht
      · exact hde
      · exact sanitizeNumber_roundtrip servings hsv hsv21
      · exact sanitizeIngredients_roundtrip ingredients hing
      · exact sanitizeInstructions_roundtrip instructions hins
      · rfl
      · show (if jsTruthy (getProp (sanitizedToVal ⟨title, description, servings,
            ingredients, instructions, imageUrls, sourceUrl⟩) "sourceUrl") then
            some (getProp (sanitizedToVal ⟨title, description, servings,
              ingredients, instructions, imageUrls, sourceUrl⟩) "sourceUrl")
          else none) = sourceUrl
        cases sourceUrl with
        | none => rfl
        | some v =>
            show (if jsTruthy v then some v else none) = some v
            rw [if_pos (hsrc v rfl)]

/-- Claim C10, counterexample: the sanitize stage is not idempotent.  A
servings string of 22 digits sanitizes to the integer 1e21, but
re-sanitizing that draft renders the number in exponential notation
("1e+21", the JavaScript String() switch at 1e21) of which parseInt reads
only the leading "1": the second pass turns servings from 1e21 into 1. -/
theorem C10_counterexample :
    ∃ r1 r2,
      sanitizeRecipeData
        (.vObj [("servings", .vStr "1000000000000000000000")]) = .ok r1 ∧
      sanitizeRecipeData (sanitizedToVal r1) = .ok r2 ∧
      r1.servings = 10 ^ 21 ∧ r2.servings = 1 ∧ r1.servings ≠ r2.servings := by
  refine ⟨_, _, rfl, rfl, ?_, ?_, ?_⟩
  · decide
  · decide
  · decide

/-- Claim C10 (amended): the sanitize stage is idempotent on every draft
whose servings count stays below 1e21 (the JavaScript String() threshold
for exponential notation): such a draft, rendered back into a loose JS
object, sanitizes to the same draft.  At 1e21 and above idempotence fails
(see the counterexample). -/
theorem C10_sanitize_idempotent_amended (d : Val) (r : SanitizedRecipe)
    (h : sanitizeRecipeData d = .ok r) (hs21 : r.servings < 10 ^ 21) :
    sanitizeRecipeData (sanitizedToVal r) = .ok r := by
  cases hni : isNullish d with
  | true =>
      unfold sanitizeRecipeData at h
      rw [if_pos (by simp [hni])] at h
      exact absurd h (by simp)
  | false =>
      have hrec := sanitize_ok d hni
      rw [h] at hrec
      have hr := Except.ok.inj hrec
      apply sanitize_fixedpoint
      · rw [hr]
        exact sanitizeString_trimmed _
      · rw [hr]
        exact sanitizeString_trimmed _
      · rw [hr]
        exact sanitizeNumber_pos _
      · exact hs21
      · intro i hi
        rw [hr] at hi
        exact sanitizeIngredients_elem _ i hi
      · intro s hs
        rw [hr] at hs
        exact sanitizeInstructions_elem _ s hs
      · intro v hv
        rw [hr] at hv
        by_cases htr : jsTruthy (getProp d "sourceUrl") = true
        · simp only [htr, if_true] at hv
          rw [Option.some.inj hv] at htr
          exact htr
        · simp [htr] at hv

/-- Claim C10 witness: bounded idempotence at a concrete loose draft. -/
theorem C10_witness :
    ∃ r, sanitizeRecipeData
        (.vObj [("title", .vStr " Pasta "), ("servings", .vStr "2"),
                ("ingredients", .vArr [.vObj [("name", .vStr "Pasta "), ("quantity", .vStr " 200 g")]]),
                ("instructions", .vArr [.vStr "Boil. "])]) = .ok r ∧
      sanitizeRecipeData (sanitizedToVal r) = .ok r := by
  refine ⟨_, rfl, ?_⟩
  exact C10_sanitize_idempotent_amended
    (.vObj [("title", .vStr " Pasta "), ("servings", .vStr "2"),
            ("ingredients", .vArr [.vObj [("name", .vStr "Pasta "), ("quantity", .vStr " 200 g")]]),
            ("instructions", .vArr [.vStr "Boil. "])]) _ rfl (by decide)

/-! ## Claim C4: JSON-LD scanning -/

theorem transform_some_complete (v : Val) (r : ParsedRecipeData)
    (h : transformSchemaOrgToRecipe v = some r) :
    jsTruthy r.title = true ∧ r.ingredients ≠ [] ∧ r.instructions ≠ [] := by
  unfold transformSchemaOrgToRecipe at h
  cases he : transformSchemaOrgToRecipeE v with
  | error e =>
      rw [he] at h
      exact absurd h (by simp)
  | ok o =>
      rw [he] at h
      replace h : o = some r := h
      subst h
      unfold transformSchemaOrgToRecipeE at he
      dsimp only at he
      split at he
      · simp at he
      · rename_i hTitle
        split at he
        · simp at he
        · rename_i ings hIngs
          split at he
          · simp at he
          · rename_i hIngsNE
            split at he
            · simp at he
            · rename_i instrs hInstrs
              split at he
              · simp at he
              · rename_i hInstrsNE
                replace he := Option.some.inj (Except.ok.inj he)
                subst he
                refine ⟨by simpa using hTitle, by simpa using hIngsNE,
                  by simpa using hInstrsNE⟩

theorem processItems_some : ∀ (l : List Val) (r : ParsedRecipeData),
    processItems l = .ok (some r) →
    ∃ rcd, transformSchemaOrgToRecipe rcd = some r := by
  intro l
  induction l with
  | nil =>
      intro r h
      exact absurd h (by simp [processItems])
  | cons item rest ih =>
      intro r h
      unfold processItems at h
      split at h
      · simp at h
      · rename_i rcd heq
        split at h
        · split at h
          · rename_i parsed htr
            have h1 := Option.some.inj (Except.ok.inj h)
            exact ⟨rcd, by rw [htr, h1]⟩
          · exact ih r h
        · exact ih r h
      · exact ih r h

theorem processBlock_some (b : String) (r : ParsedRecipeData)
    (h : processBlock b = some r) :
    ∃ rcd, transformSchemaOrgToRecipe rcd = some r := by
  unfold processBlock at h
  split at h
  · exact absurd h (by simp)
  · dsimp only at h
    split at h
    · exact absurd h (by simp)
    · rename_i data hdata
      split at h
      · rename_i o ho
        exact processItems_some _ r (by rw [ho, h])
      · exact absurd h (by simp)

theorem scanBlocks_some : ∀ (bs : List String) (r : ParsedRecipeData),
    scanBlocks bs = some r → ∃ b, processBlock b = some r := by
  intro bs
  induction bs with
  | nil =>
      intro r h
      exact absurd h (by simp [scanBlocks])
  | cons b rest ih =>
      intro r h
      unfold scanBlocks at h
      split at h
      · rename_i r0 hb
        exact ⟨b, by rw [hb, h]⟩
      · exact ih r h

theorem scanBlocks_none (bs : List String)
    (h : ∀ b ∈ bs, processBlock b = none) : scanBlocks bs = none := by
  induction bs with
  | nil => rfl
  | cons b rest ih =>
      show (match processBlock b with
        | some r => some r
        | none => scanBlocks rest) = none
      rw [h b (by simp)]
      exact ih (fun x hx => h x (by simp [hx]))

/-- Claim C4: the JSON-LD parser scans blocks in document order, first
fully-valid candidate wins; every returned candidate has a truthy title,
at least one ingredient and at least one instruction; a block whose
contents do not parse as JSON is skipped silently; when no block yields a
candidate the parser returns none and never raises (it is total by type);
a candidate missing the title, the ingredients or the instructions makes
the transform return none and item scanning continue; a bare object whose
atType is Recipe is accepted as a candidate. -/
theorem C4_jsonld_first_valid_match (html : Html) (url : String) :
    (∀ r, parseJsonLdRecipe html url = some r →
        jsTruthy r.title = true ∧ r.ingredients ≠ [] ∧ r.instructions ≠ []) ∧
    (∀ b rest, processBlock b = none → scanBlocks (b :: rest) = scanBlocks rest) ∧
    (∀ b rest r, processBlock b = some r → scanBlocks (b :: rest) = some r) ∧
    (∀ b, parseJson b = none → processBlock b = none) ∧
    ((∀ b ∈ html.jsonLdBlocks, processBlock b = none) →
        parseJsonLdRecipe html url = none) ∧
    (∀ v, jsTruthy (jsOr (getProp v "name") (getProp v "headline")) = false →
        transformSchemaOrgToRecipe v = none) ∧
    (∀ v, parseIngredients (jsOr (getProp v "recipeIngredient") (.vArr [])) =
        .ok [] → transformSchemaOrgToRecipe v = none) ∧
    (∀ v ings,
        parseIngredients (jsOr (getProp v "recipeIngredient") (.vArr [])) =
          .ok ings →
        parseInstructions (jsOr (getProp v "recipeInstructions") (.vArr [])) =
          .ok [] →
        transformSchemaOrgToRecipe v = none) ∧
    (∀ item rest rcd, findRecipeInItem item = .ok (some rcd) →
        transformSchemaOrgToRecipe rcd = none →
        processItems (item :: rest) = processItems rest) ∧
    (∀ item, isNullish item = false →
        valIsStr (getProp item "@type") "Recipe" = true →
        findRecipeInItem item = .ok (some item)) := by
  refine ⟨?_, ?_, ?_, ?_, ?_, ?_, ?_, ?_, ?_, ?_⟩
  · intro r h
    obtain ⟨b, hb⟩ := scanBlocks_some html.jsonLdBlocks r h
    obtain ⟨rcd, hrcd⟩ := processBlock_some b r hb
    exact transform_some_complete rcd r hrcd
  · intro b rest h
    show (match processBlock b with
      | some r => some r
      | none => scanBlocks rest) = scanBlocks rest
    rw [h]
  · intro b rest r h
    show (match processBlock b with
      | some r => some r
      | none => scanBlocks rest) = some r
    rw [h]
  · intro b h
    by_cases hb : (b == "") = true
    · simp [processBlock, hb]
    · simp [processBlock, hb, h]
  · intro h
    exact scanBlocks_none _ h
  · intro v hfalse
    simp [transformSchemaOrgToRecipe, transformSchemaOrgToRecipeE, hfalse]
  · intro v h7
    by_cases ht : jsTruthy (jsOr (getProp v "name") (getProp v "headline")) = true
    · simp [transformSchemaOrgToRecipe, transformSchemaOrgToRecipeE, ht, h7]
    · simp only [Bool.not_eq_true] at ht
      simp [transformSchemaOrgToRecipe, transformSchemaOrgToRecipeE, ht]
  · intro v ings h8a h8b
    by_cases ht : jsTruthy (jsOr (getProp v "name") (getProp v "headline")) = true
    · by_cases hie : ings.isEmpty = true
      · simp [transformSchemaOrgToRecipe, transformSchemaOrgToRecipeE, ht, h8a, hie]
      · simp [transformSchemaOrgToRecipe, transformSchemaOrgToRecipeE, ht, h8a,
          hie, h8b]
    · simp only [Bool.not_eq_true] at ht
      simp [transformSchemaOrgToRecipe, transformSchemaOrgToRecipeE, ht]
  · intro item rest rcd h9a h9b
    by_cases hrt : jsTruthy rcd = true
    · simp [processItems, h9a, hrt, h9b]
    · simp only [Bool.not_eq_true] at hrt
      simp [processItems, h9a, hrt]
  · intro item hnn hty
    unfold findRecipeInItem
    rw [if_neg (by simp [hnn]), if_pos hty]

/-- Claim C4 witness: a document whose first JSON-LD block is malformed and
whose second block carries a valid Recipe yields that recipe, and the
returned candidate satisfies all three completeness requirements. -/
theorem C4_witness :
    ∃ r, parseJsonLdRecipe
        { jsonLdBlocks := ["not json",
            "\x7b\"@type\": \"Recipe\", \"name\": \"Tomato Soup\", \"recipeIngredient\": [\"2 cups water\"], \"recipeInstructions\": [\"Boil.\"]\x7d"] }
        "https://example.com" = some r ∧
      jsTruthy r.title = true ∧ r.ingredients ≠ [] ∧ r.instructions ≠ [] := by
  refine ⟨_, rfl, ?_⟩
  exact (C4_jsonld_first_valid_match
    { jsonLdBlocks := ["not json",
        "\x7b\"@type\": \"Recipe\", \"name\": \"Tomato Soup\", \"recipeIngredient\": [\"2 cups water\"], \"recipeInstructions\": [\"Boil.\"]\x7d"] }
    "https://example.com").1 _ rfl

/-! ## Claim C1: the tier-1 fast path of the URL orchestrator -/

/-- A parsed recipe record rendered as a JS object is truthy. -/
theorem jsTruthy_parsedToVal (pr : ParsedRecipeData) :
    jsTruthy (parsedToVal pr) = true := rfl

/-- A document whose single JSON-LD block is a complete Tomato Soup
Recipe. -/
def htmlA : Html :=
  { jsonLdBlocks := ["\x7b\"@type\": \"Recipe\", \"name\": \"Tomato Soup\", \"description\": \"A classic soup.\", \"recipeYield\": \"4 servings\", \"recipeIngredient\": [\"2 cups water\", \"3 tomatoes\", \"1 tsp salt\"], \"recipeInstructions\": [\"Chop.\", \"Boil.\", \"Simmer.\", \"Serve.\"]\x7d"] }

/-- Collaborators serving htmlA, with an AI backend whose image call yields
no inline data. -/
def envA : Env :=
  { geminiKey := true, http := fun _ => .success htmlA, ai := fun _ => .image none }

/-- A document whose single JSON-LD block is a Recipe that is valid in the
sense of the claim (non-empty title, one ingredient, one instruction) but
carries no description. -/
def htmlB : Html :=
  { jsonLdBlocks := ["\x7b\"@type\": \"Recipe\", \"name\": \"Bread\", \"recipeIngredient\": [\"2 cups flour\"], \"recipeInstructions\": [\"Bake.\"]\x7d"] }

/-- Collaborators serving htmlB. -/
def envB : Env :=
  { geminiKey := true, http := fun _ => .success htmlB, ai := fun _ => .image none }

set_option maxRecDepth 40000 in
/-- Claim C1, counterexample: (a) on the Tomato Soup document the URL
orchestrator does accept the tier-1 parse, but its event log records an
AI call (the unconditional image generation after validation), so "never
invokes any AI call" is false; (b) a JSON-LD block that is valid in the
sense of the claim (non-empty title, at least one ingredient and one
instruction) but has no description makes the orchestrator raise instead
of returning a validated draft. -/
theorem C1_counterexample :
    aiCallsOf (runM (generateRecipeFromUrl "https://example.com/soup") envA).2.2 =
      [.imageGeneration "Tomato Soup" "A classic soup."] ∧
    (∃ m, (runM (generateRecipeFromUrl "https://example.com/bread") envB).1 =
      .error (.plain m)) := by
  exact ⟨rfl, _, rfl⟩

/-- Claim C1 (amended): when the fetched HTML carries a JSON-LD Recipe
block that parses (tier 1) and whose transformed draft survives sanitize
and validate, the orchestrator returns that draft immediately — the event
log shows no tier-2/tier-3 AI extraction call and no retry wait; the only
AI call is the single unconditional image-generation call made after
validation (here with an imageless outcome, so the final imageUrls list is
empty). -/
theorem C1_tier1_amended (url nu : String) (env : Env) (html : Html)
    (pr : ParsedRecipeData) (r : SanitizedRecipe)
    (hnorm : normalizeUrl url = .ok nu)
    (hhttp : env.http nu = .success html)
    (hparse : parseJsonLdRecipe html nu = some pr)
    (hsan : sanitizeRecipeData (parsedToVal pr) = .ok r)
    (hval : validateRecipeData r = .ok r)
    (hkey : env.geminiKey = true)
    (himg : env.ai 0 = .image none) :
    runM (generateRecipeFromUrl url) env =
      (.ok { r with imageUrls := [] },
       (1, [Ev.ai (.imageGeneration r.title r.description)])) ∧
    aiCallsOf (runM (generateRecipeFromUrl url) env).2.2 =
      [.imageGeneration r.title r.description] := by
  have hmain : runM (generateRecipeFromUrl url) env =
      (.ok { r with imageUrls := [] },
       (1, [Ev.ai (.imageGeneration r.title r.description)])) := by
    simp only [runM, generateRecipeFromUrl, extractRecipeFromUrl, catchM,
      bind_apply, pure_apply, liftExtract, liftJs, hnorm, fetchHtmlWithTimeout,
      fetchHtmlContent, hhttp, hparse, hsan, hval, jsTruthy_parsedToVal,
      generateImageForRecipe, getAI, hkey, logEv, nextOutcome, himg,
      Bool.not_true, Bool.false_eq_true, if_false, if_true, List.nil_append]
  refine ⟨hmain, ?_⟩
  rw [hmain]
  rfl

set_option maxRecDepth 40000 in
/-- Claim C1 witness: the amended theorem on the Tomato Soup document —
the draft matches the block (title, 3 ingredients, 4 instructions) and
exactly one AI call (image generation) is recorded. -/
theorem C1_witness :
    runM (generateRecipeFromUrl "https://example.com/soup") envA =
      (.ok { title := "Tomato Soup", description := "A classic soup.",
             servings := 4,
             ingredients := [{ name := "water", quantity := "2 cups" },
                             { name := "tomatoes", quantity := "3" },
                             { name := "salt", quantity := "1 tsp" }],
             instructions := ["Chop.", "Boil.", "Simmer.", "Serve."],
             imageUrls := [], sourceUrl := none },
       (1, [Ev.ai (.imageGeneration "Tomato Soup" "A classic soup.")])) :=
  (C1_tier1_amended "https://example.com/soup" "https://example.com/soup"
    envA htmlA _ _ rfl rfl rfl rfl rfl rfl rfl).1

end MRB
